import Mathlib

/-
Shallow embedding of the hypergraph-extraction core of profmadden/bookshelf_r:
src/marklist.rs (MarkList) and the build_graph extraction of src/bookshelf.rs
(lines 1409-1598), together with the data-model pieces build_graph reads
(Cell, Net, PinInstance, PinRef, cell positions, pinloc).

Modelling conventions:
- usize / u32 / u64 values are Nat; c_int values are Int.
- f32 coordinates and dimensions are modelled as rationals; the `as c_int`
  cast on a cell area is modelled as truncation toward zero.
- Rust panics that the spec treats as failure modes (the out-of-range access
  `cellmark.marked[cells[i]]` and the duplicate-triggered access
  `cellmark.list[i]` in the marking loop) are modelled explicitly as an
  error outcome carrying the state at the panic point.  Other slice indexing
  is modelled with getD; under the well-formedness hypotheses used by the
  theorems every such access is in range, matching the Rust code, which
  would panic otherwise.
- println! diagnostics that do not affect the result are omitted, except the
  "Cell already marked!" report, which is recorded in a flag because the
  spec discusses it.
-/

namespace BookshelfR

/-- MarkList from src/marklist.rs. -/
structure MarkList where
  len : Nat
  marked : List Bool
  list : List Nat
  index : List Nat
deriving DecidableEq

/-- MarkList::new. -/
def MarkList.new (len : Nat) : MarkList :=
  { len := len
    marked := List.replicate len false
    list := []
    index := List.replicate len 0 }

/-- MarkList::mark.  Rust panics when n is out of range of `marked`; this
total model is only used at call sites that are in range under the
theorems' hypotheses. -/
def MarkList.mark (m : MarkList) (n : Nat) : MarkList :=
  if m.marked.getD n false then m
  else
    { m with
      marked := m.marked.set n true
      index := m.index.set n m.list.length
      list := m.list ++ [n] }

/-- MarkList::clear: unmark exactly the elements of `list`, then empty it. -/
def MarkList.clear (m : MarkList) : MarkList :=
  { m with
    marked := m.list.foldl (fun acc v => acc.set v false) m.marked
    list := [] }

/-- Well-formedness of a MarkList: array sizes match `len`, `list` holds the
marked elements without repetition, and `index` inverts `list`. -/
def MarkList.WF (m : MarkList) : Prop :=
  m.marked.length = m.len ∧
  m.index.length = m.len ∧
  m.list.Nodup ∧
  (∀ j ∈ m.list, j < m.len) ∧
  (∀ j ∈ m.list, m.marked.getD j false = true) ∧
  (∀ j, j < m.len → m.marked.getD j false = true → j ∈ m.list) ∧
  (∀ k, k < m.list.length → m.index.getD (m.list.getD k 0) 0 = k)

/-- The invariant exactly as the spec states it: `list.length` equals the
number of marked indices, and `index[list[k]] = k` for every position k. -/
def MarkList.Inv (m : MarkList) : Prop :=
  m.list.length = m.marked.countP (fun b => b) ∧
  (∀ k, k < m.list.length → m.index.getD (m.list.getD k 0) 0 = k)

instance (m : MarkList) : Decidable m.WF := by
  unfold MarkList.WF; infer_instance

instance (m : MarkList) : Decidable m.Inv := by
  unfold MarkList.Inv; infer_instance

/-- PinInstance from src/bookshelf.rs: a pin stored with its cell.  The
`details` field is never read by the extraction and is omitted. -/
structure PinInstance where
  name : String
  dx : ℚ
  dy : ℚ
  parent_cell : Nat
  parent_net : Nat
deriving DecidableEq

/-- PinRef from src/bookshelf.rs: a (cell id, pin-slot) reference stored with
a net. -/
structure PinRef where
  parent_cell : Nat
  index : Nat
deriving DecidableEq

/-- Cell from src/bookshelf.rs.  The soft / is_macro / can_rotate fields are
never read by the extraction and are omitted. -/
structure Cell where
  name : String
  w : ℚ
  h : ℚ
  pins : List PinInstance
  terminal : Bool
deriving DecidableEq

/-- Cell::area. -/
def Cell.area (c : Cell) : ℚ := c.h * c.w

/-- Net from src/bookshelf.rs. -/
structure Net where
  name : String
  pins : List PinRef
deriving DecidableEq

/-- Point from the point module: a cell position. -/
structure Point where
  x : ℚ
  y : ℚ
deriving DecidableEq

/-- Defaults used for the getD modelling of slice indexing. -/
def dCell : Cell := ⟨"", 0, 0, [], false⟩

def dNet : Net := ⟨"", []⟩

def dPoint : Point := ⟨0, 0⟩

def dPin : PinInstance := ⟨"", 0, 0, 0, 0⟩

/-- BookshelfCircuit restricted to the fields build_graph reads: cells, their
positions, and nets.  The remaining fields (rows, macros, name maps, notes,
counters, orientations, units) are never read by the extraction. -/
structure BookshelfCircuit where
  cells : List Cell
  cellpos : List Point
  nets : List Net
deriving DecidableEq

/-- BookshelfCircuit::pinloc (bookshelf.rs lines 1224-1228): absolute pin
position = cell position + pin offset. -/
def BookshelfCircuit.pinloc (ckt : BookshelfCircuit) (pr : PinRef) : ℚ × ℚ :=
  let px := (ckt.cellpos.getD pr.parent_cell dPoint).x +
    ((ckt.cells.getD pr.parent_cell dCell).pins.getD pr.index dPin).dx
  let py := (ckt.cellpos.getD pr.parent_cell dPoint).y +
    ((ckt.cells.getD pr.parent_cell dCell).pins.getD pr.index dPin).dy
  (px, py)

/-- Cross-reference well-formedness of a circuit: positions parallel the cell
array, every pin's parent net id is a real net, and every net pin reference
names a real cell. -/
def BookshelfCircuit.WF (ckt : BookshelfCircuit) : Prop :=
  ckt.cellpos.length = ckt.cells.length ∧
  (∀ c ∈ ckt.cells, ∀ p ∈ c.pins, p.parent_net < ckt.nets.length) ∧
  (∀ n ∈ ckt.nets, ∀ pr ∈ n.pins, pr.parent_cell < ckt.cells.length)

/-- Consistency of the dual cell/net pin cross-references: cell c has a pin
on net n exactly when net n has a pin reference naming cell c. -/
def BookshelfCircuit.Consistent (ckt : BookshelfCircuit) : Prop :=
  ∀ c, c < ckt.cells.length → ∀ n, n < ckt.nets.length →
    ((∃ p ∈ (ckt.cells.getD c dCell).pins, p.parent_net = n) ↔
     (∃ pr ∈ (ckt.nets.getD n dNet).pins, pr.parent_cell = c))

instance (ckt : BookshelfCircuit) : Decidable ckt.WF := by
  unfold BookshelfCircuit.WF; infer_instance

instance (ckt : BookshelfCircuit) : Decidable ckt.Consistent := by
  unfold BookshelfCircuit.Consistent; infer_instance

/-- HyperParams from src/bookshelf.rs (lines 1343-1355). -/
structure HyperParams where
  cellmark : MarkList
  netmark : MarkList
  horizontal : Bool
  split_point : ℚ
  partition : List Int
  bias : ℚ
  k : Nat
  term_prop : Bool
  passes : Nat
  seed : Nat
  edgeweight : Nat
deriving DecidableEq

/-- HyperParams::new (bookshelf.rs lines 1357-1373). -/
def HyperParams.new (ckt : BookshelfCircuit) : HyperParams :=
  { cellmark := MarkList.new ckt.cells.length
    netmark := MarkList.new ckt.nets.length
    horizontal := false
    split_point := 0
    partition := List.replicate ckt.cells.length (-1)
    bias := 1 / 2
    k := 2
    term_prop := true
    passes := 1
    seed := 8675309
    edgeweight := 0 }

/-- The HyperGraph record, with the field layout declared in bookshelf.rs
(lines 1375-1381): vertex weights, hyperedge weights, partition, CSR offsets
(eind) and CSR pin array (eptr). -/
structure HyperGraph where
  vtxwt : List Int
  hewt : List Int
  part : List Int
  eind : List Nat
  eptr : List Nat
deriving DecidableEq

/-- Modelled from the spec: `HyperGraph::new()` lives in the external
`hypergraph` crate, which is not part of this repository.  Per the spec the
Hypergraph is newly allocated per extraction call and owned by the caller,
so all five arrays start empty. -/
def HyperGraph.new : HyperGraph := ⟨[], [], [], [], []⟩

/-- Models the Rust `as c_int` cast of an f32 cell area: truncation toward
zero.  (Saturation at the i32 bounds is not modelled; no claim depends on
the numeric value of a cell-area weight.) -/
def ratTrunc (q : ℚ) : Int := Int.tdiv q.num (q.den : Int)

/-- Outcome of a build_graph call: a returned HyperGraph, or a Rust panic. -/
inductive BuildOutcome where
  | ok (hg : HyperGraph)
  | panicked (msg : String)
deriving DecidableEq

/-- Result of a build_graph call: the outcome, the state of the mutable
HyperParams at return (or at the panic point), and whether the
"Cell already marked!" duplicate report was printed. -/
structure BuildResult where
  out : BuildOutcome
  params : HyperParams
  dupReported : Bool
deriving DecidableEq

/-- The marking loop of build_graph (bookshelf.rs lines 1417-1431), with the
loop counter i made explicit.  The accesses `cellmark.marked[cells[i]]` and
`cellmark.list[i]` are the two panic sites: the first trips on an
out-of-range id, the second on a duplicate id (mark is then a no-op, so
`list` did not grow to length i+1).  For each newly marked cell every pin's
parent net is marked. -/
def markCells (ckt : BookshelfCircuit) :
    List Nat → Nat → MarkList → MarkList → Bool →
      Option String × MarkList × MarkList × Bool
  | [], _, cm, nm, dup => (none, cm, nm, dup)
  | c :: rest, i, cm, nm, dup =>
    if c < cm.marked.length then
      let dup2 := dup || cm.marked.getD c false
      let cm2 := cm.mark c
      if i < cm2.list.length then
        let cell := ckt.cells.getD (cm2.list.getD i 0) dCell
        let nm2 := cell.pins.foldl (fun m p => m.mark p.parent_net) nm
        markCells ckt rest (i + 1) cm2 nm2 dup2
      else (some "index out of range: list", cm2, nm, dup2)
    else (some "index out of range: marked", cm, nm, dup)

/-- Classification state of the marked nets: internal pin counts, and the
source / sink touch flags, each indexed by a net's netmark index. -/
structure NetClass where
  cardinality : List Nat
  sources : List Bool
  sinks : List Bool
deriving DecidableEq

/-- One pin of the classification pass (bookshelf.rs lines 1441-1463): an
internal pin bumps the net's cardinality; a boundary pin, when terminal
propagation is on, marks the net as touching source (coordinate strictly
before the split) or sink (at or after), comparing y for a horizontal split
and x otherwise. -/
def classifyPin (ckt : BookshelfCircuit) (cm : MarkList) (horizontal : Bool)
    (split_point : ℚ) (term_prop : Bool) (idx : Nat) (acc : NetClass)
    (pr : PinRef) : NetClass :=
  if cm.marked.getD pr.parent_cell false then
    { acc with cardinality := acc.cardinality.set idx (acc.cardinality.getD idx 0 + 1) }
  else if term_prop then
    let pl := ckt.pinloc pr
    let split_value := if horizontal then pl.2 else pl.1
    if split_value < split_point then
      { acc with sources := acc.sources.set idx true }
    else
      { acc with sinks := acc.sinks.set idx true }
  else acc

/-- The classification pass over the marked nets (bookshelf.rs lines
1433-1483).  The zero-cardinality diagnostic println has no effect on any
result and is omitted. -/
def classifyNets (ckt : BookshelfCircuit) (cm nm : MarkList) (horizontal : Bool)
    (split_point : ℚ) (term_prop : Bool) : NetClass :=
  nm.list.foldl
    (fun acc net_id =>
      (ckt.nets.getD net_id dNet).pins.foldl
        (classifyPin ckt cm horizontal split_point term_prop
          (nm.index.getD net_id 0)) acc)
    ⟨List.replicate nm.list.length 0, List.replicate nm.list.length false,
      List.replicate nm.list.length false⟩

/-- One net of the emission pass (bookshelf.rs lines 1525-1595): push the
cellmark index of every pin whose parent cell is marked, push the hyperedge
weight for the configured edgeweight mode, then (under terminal propagation)
push the SOURCE and SINK pseudo-vertex ids when the net touches them, and
close the hyperedge by appending the running pin total to eind.  The local
`card` counter and the low-cardinality println affect no result and are
omitted. -/
def emitNet (ckt : BookshelfCircuit) (cm nm : MarkList) (nc : NetClass)
    (term_prop : Bool) (edgeweight : Nat) (src_id sink_id : Nat)
    (hg : HyperGraph) (net_id : Nat) : HyperGraph :=
  let idx := nm.index.getD net_id 0
  let hg1 := (ckt.nets.getD net_id dNet).pins.foldl
    (fun hgp pr =>
      if cm.marked.getD pr.parent_cell false then
        { hgp with eptr := hgp.eptr ++ [cm.index.getD pr.parent_cell 0] }
      else hgp) hg
  let hg2 :=
    match edgeweight with
    | 0 => { hg1 with hewt := hg1.hewt ++ [(1 : Int)] }
    | 1 =>
      if nc.sources.getD idx false || nc.sinks.getD idx false then
        { hg1 with hewt := hg1.hewt ++ [(6 : Int)] }
      else
        { hg1 with hewt := hg1.hewt ++ [(5 : Int)] }
    | _ => { hg1 with hewt := hg1.hewt ++ [(1 : Int)] }
  let hg3 :=
    if term_prop then
      let hga := if nc.sources.getD idx false then
          { hg2 with eptr := hg2.eptr ++ [src_id] } else hg2
      if nc.sinks.getD idx false then
        { hga with eptr := hga.eptr ++ [sink_id] } else hga
    else hg2
  { hg3 with eind := hg3.eind ++ [hg3.eptr.length] }

/-- The post-marking phases of build_graph (bookshelf.rs lines 1433-1597),
given the two populated MarkLists: classify the marked nets, emit vertex
weights (cell area, cast to int) and initial partitions (-1) in cellmark
order, append the SOURCE (weight 1, partition 0) and SINK (weight 1,
partition 1) pseudo-vertices when terminal propagation is on, then emit the
hyperedges in netmark order, starting eind at 0. -/
def buildEmit (ckt : BookshelfCircuit) (params : HyperParams)
    (cm nm : MarkList) : HyperGraph :=
  let nc := classifyNets ckt cm nm params.horizontal params.split_point
    params.term_prop
  let hg0 := HyperGraph.new
  let hg1 := cm.list.foldl
    (fun hgc cell_id =>
      { hgc with
        vtxwt := hgc.vtxwt ++ [ratTrunc (ckt.cells.getD cell_id dCell).area]
        part := hgc.part ++ [(-1 : Int)] }) hg0
  let src_id := if params.term_prop then hg1.vtxwt.length else 0
  let sink_id := if params.term_prop then hg1.vtxwt.length + 1 else 0
  let hg2 :=
    if params.term_prop then
      { hg1 with vtxwt := hg1.vtxwt ++ [1, 1], part := hg1.part ++ [0, 1] }
    else hg1
  let hg3 := { hg2 with eind := [0] }
  nm.list.foldl
    (emitNet ckt cm nm nc params.term_prop params.edgeweight src_id sink_id)
    hg3

/-- build_graph (bookshelf.rs lines 1409-1598).  Both MarkLists are cleared,
the subset and its nets are marked (with the two possible panics), then the
hypergraph is emitted by buildEmit. -/
def build_graph (ckt : BookshelfCircuit) (cells : List Nat)
    (params : HyperParams) : BuildResult :=
  match markCells ckt cells 0 params.cellmark.clear params.netmark.clear false with
  | (some msg, cm, nm, dup) =>
    { out := .panicked msg
      params := { params with cellmark := cm, netmark := nm }
      dupReported := dup }
  | (none, cm, nm, dup) =>
    { out := .ok (buildEmit ckt params cm nm)
      params := { params with cellmark := cm, netmark := nm }
      dupReported := dup }

/-- A net touches SOURCE: it has a boundary pin whose axis coordinate lies
strictly before the split point. -/
def srcTouch (ckt : BookshelfCircuit) (cm : MarkList) (horizontal : Bool)
    (split_point : ℚ) (net : Net) : Bool :=
  net.pins.any fun pr =>
    !(cm.marked.getD pr.parent_cell false) &&
      decide ((if horizontal then (ckt.pinloc pr).2 else (ckt.pinloc pr).1) < split_point)

/-- A net touches SINK: it has a boundary pin whose axis coordinate lies at
or after the split point. -/
def sinkTouch (ckt : BookshelfCircuit) (cm : MarkList) (horizontal : Bool)
    (split_point : ℚ) (net : Net) : Bool :=
  net.pins.any fun pr =>
    !(cm.marked.getD pr.parent_cell false) &&
      !(decide ((if horizontal then (ckt.pinloc pr).2 else (ckt.pinloc pr).1) < split_point))

/-- The internal pins recorded for one net: the cellmark index of the parent
cell of every pin reference whose parent cell is marked, in net pin order. -/
def internalPins (cm : MarkList) (net : Net) : List Nat :=
  (net.pins.filter fun pr => cm.marked.getD pr.parent_cell false).map
    fun pr => cm.index.getD pr.parent_cell 0

/-- First-occurrence accumulation: append each element not yet present. -/
def addNew (acc : List Nat) : List Nat → List Nat
  | [] => acc
  | n :: ns => addNew (if n ∈ acc then acc else acc ++ [n]) ns

/-- CSR offsets of a list of segments, starting after `base` pins. -/
def offsets (base : Nat) : List (List Nat) → List Nat
  | [] => []
  | s :: rest => (base + s.length) :: offsets (base + s.length) rest

/-- The sequence of parent-net ids marked by the marking loop for subset
`cells`: for each cell in order, its pins' parent nets in pin order. -/
def netSeq (ckt : BookshelfCircuit) (cells : List Nat) : List Nat :=
  cells.flatMap fun c => (ckt.cells.getD c dCell).pins.map fun p => p.parent_net

/-- A boundary pin lying strictly before the split. -/
def srcPred (ckt : BookshelfCircuit) (cm : MarkList) (horizontal : Bool)
    (split_point : ℚ) (pr : PinRef) : Bool :=
  !(cm.marked.getD pr.parent_cell false) &&
    decide ((if horizontal then (ckt.pinloc pr).2 else (ckt.pinloc pr).1) < split_point)

/-- A boundary pin lying at or after the split. -/
def sinkPred (ckt : BookshelfCircuit) (cm : MarkList) (horizontal : Bool)
    (split_point : ℚ) (pr : PinRef) : Bool :=
  !(cm.marked.getD pr.parent_cell false) &&
    !(decide ((if horizontal then (ckt.pinloc pr).2 else (ckt.pinloc pr).1) < split_point))

/-- The complete eptr segment emitted for one net: its internal pins, then
the SOURCE pseudo-id if touched, then the SINK pseudo-id if touched. -/
def netSegment (ckt : BookshelfCircuit) (cm nm : MarkList) (nc : NetClass)
    (tp : Bool) (src_id sink_id : Nat) (net_id : Nat) : List Nat :=
  internalPins cm (ckt.nets.getD net_id dNet) ++
    (if tp && nc.sources.getD (nm.index.getD net_id 0) false then [src_id] else []) ++
    (if tp && nc.sinks.getD (nm.index.getD net_id 0) false then [sink_id] else [])

/-- The hyperedge weight for one net under the configured edgeweight mode. -/
def netWeight (edgeweight : Nat) (src snk : Bool) : Int :=
  match edgeweight with
  | 0 => 1
  | 1 => if src || snk then 6 else 5
  | _ => 1

/-- Well-formedness of the extraction context for a circuit: both MarkLists
well formed and sized to the circuit's cell / net counts. -/
def HyperParams.WFFor (params : HyperParams) (ckt : BookshelfCircuit) : Prop :=
  params.cellmark.WF ∧ params.netmark.WF ∧
  params.cellmark.len = ckt.cells.length ∧ params.netmark.len = ckt.nets.length

instance (params : HyperParams) (ckt : BookshelfCircuit) :
    Decidable (params.WFFor ckt) := by
  unfold HyperParams.WFFor; infer_instance

/-- The cell MarkList state produced by a successful marking loop. -/
def cmFinal (cells : List Nat) (params : HyperParams) : MarkList :=
  cells.foldl MarkList.mark params.cellmark.clear

/-- The net MarkList state produced by a successful marking loop. -/
def nmFinal (ckt : BookshelfCircuit) (cells : List Nat)
    (params : HyperParams) : MarkList :=
  (netSeq ckt cells).foldl MarkList.mark params.netmark.clear

/-- The net classification computed by a successful build_graph call. -/
def ncFinal (ckt : BookshelfCircuit) (cells : List Nat)
    (params : HyperParams) : NetClass :=
  classifyNets ckt (cmFinal cells params) (nmFinal ckt cells params)
    params.horizontal params.split_point params.term_prop

/-- The eptr segments emitted by a successful build_graph call, one per
marked net, in netmark order. -/
def segsFinal (ckt : BookshelfCircuit) (cells : List Nat)
    (params : HyperParams) : List (List Nat) :=
  (nmFinal ckt cells params).list.map
    (netSegment ckt (cmFinal cells params) (nmFinal ckt cells params)
      (ncFinal ckt cells params) params.term_prop
      (if params.term_prop then (cmFinal cells params).list.length else 0)
      (if params.term_prop then (cmFinal cells params).list.length + 1 else 0))

/-- The hyperedge weights emitted by a successful build_graph call. -/
def hewtFinal (ckt : BookshelfCircuit) (cells : List Nat)
    (params : HyperParams) : List Int :=
  (nmFinal ckt cells params).list.map fun nid =>
    netWeight params.edgeweight
      ((ncFinal ckt cells params).sources.getD
        ((nmFinal ckt cells params).index.getD nid 0) false)
      ((ncFinal ckt cells params).sinks.getD
        ((nmFinal ckt cells params).index.getD nid 0) false)

/-- A small concrete circuit used to witness the claim theorems: two cells
a (1 x 1, at (0,0)) and b (2 x 1, at (10,0)), one net n0 joining them, each
cell carrying one pin at offset (0,0). -/
def cktEx : BookshelfCircuit :=
  { cells :=
      [ ⟨"a", 1, 1, [⟨"p0", 0, 0, 0, 0⟩], false⟩
      , ⟨"b", 2, 1, [⟨"p1", 0, 0, 1, 0⟩], false⟩ ]
    cellpos := [⟨0, 0⟩, ⟨10, 0⟩]
    nets := [⟨"n0", [⟨0, 0⟩, ⟨1, 0⟩]⟩] }

/-- Extraction context for cktEx with a vertical split at x = 5. -/
def paramsEx : HyperParams :=
  { HyperParams.new cktEx with split_point := 5 }

/-- Context used by the C4 counterexample: the cell MarkList already holds a
marked element at entry, so the claim's "left exactly as at entry" can be
tested. -/
def paramsC4 : HyperParams :=
  { HyperParams.new cktEx with cellmark := (MarkList.new 2).mark 0 }

section MarkListLemmas

theorem MarkList.mark_of_marked {m : MarkList} {n : Nat}
    (h : m.marked.getD n false = true) : m.mark n = m := by
  unfold MarkList.mark
  rw [if_pos h]

theorem MarkList.marked_lt_of_getD {m : MarkList} {j : Nat} (hwf : m.WF)
    (h : m.marked.getD j false = true) : j < m.len := by
  by_contra hge
  rw [List.getD_eq_default] at h
  · exact Bool.false_ne_true h
  · rw [hwf.1]; omega

theorem MarkList.mem_of_marked {m : MarkList} {j : Nat} (hwf : m.WF)
    (h : m.marked.getD j false = true) : j ∈ m.list := by
  exact hwf.2.2.2.2.2.1 j (m.marked_lt_of_getD hwf h) h

theorem MarkList.not_marked_of_not_mem {m : MarkList} {n : Nat} (hwf : m.WF)
    (h : n ∉ m.list) : m.marked.getD n false = false := by
  by_contra hb
  exact h (m.mem_of_marked hwf (by simpa using hb))

theorem MarkList.mark_not_mem {m : MarkList} {n : Nat} (hwf : m.WF)
    (h : n ∉ m.list) :
    m.mark n =
      { m with
        marked := m.marked.set n true
        index := m.index.set n m.list.length
        list := m.list ++ [n] } := by
  unfold MarkList.mark
  rw [if_neg (by rw [m.not_marked_of_not_mem hwf h]; exact Bool.false_ne_true)]

theorem getD_set_self {α : Type} (l : List α) (i : Nat) (a d : α)
    (h : i < l.length) : (l.set i a).getD i d = a := by
  induction l generalizing i with
  | nil => simp at h
  | cons x xs ih =>
    cases i with
    | zero => simp [List.set, List.getD]
    | succ k => simp only [List.set, List.getD_cons_succ]; exact ih k (by simpa using h)

theorem getD_set_ne {α : Type} (l : List α) (i j : Nat) (a d : α)
    (h : i ≠ j) : (l.set i a).getD j d = l.getD j d := by
  induction l generalizing i j with
  | nil => simp [List.set]
  | cons x xs ih =>
    cases i with
    | zero =>
      cases j with
      | zero => exact absurd rfl h
      | succ k => simp [List.set, List.getD]
    | succ k =>
      cases j with
      | zero => simp [List.set, List.getD]
      | succ k2 =>
        simp only [List.set, List.getD_cons_succ]
        exact ih k k2 (by omega)

theorem getD_set_self_of_eq {α : Type} (l : List α) (i : Nat) (a : α) :
    (l.set i a).getD i a = a := by
  by_cases h : i < l.length
  · exact getD_set_self _ _ _ _ h
  · rw [List.getD_eq_default]
    simp only [List.length_set]
    omega

theorem getD_append_left {α : Type} (l1 l2 : List α) (k : Nat) (d : α)
    (h : k < l1.length) : (l1 ++ l2).getD k d = l1.getD k d := by
  induction l1 generalizing k with
  | nil => simp at h
  | cons x xs ih =>
    cases k with
    | zero => simp [List.getD]
    | succ k2 => simp only [List.cons_append, List.getD_cons_succ]; exact ih k2 (by simpa using h)

theorem getD_append_length {α : Type} (l1 l2 : List α) (x d : α) :
    (l1 ++ x :: l2).getD l1.length d = x := by
  induction l1 with
  | nil => simp [List.getD]
  | cons y ys ih => simpa [List.getD] using ih

theorem MarkList.mark_WF {m : MarkList} {n : Nat} (hwf : m.WF) (hn : n < m.len) :
    (m.mark n).WF := by
  by_cases hmem : n ∈ m.list
  · rw [m.mark_of_marked (hwf.2.2.2.2.1 n hmem)]
    exact hwf
  · rw [m.mark_not_mem hwf hmem]
    obtain ⟨h1, h2, h3, h4, h5, h6, h7⟩ := hwf
    have hne : ∀ j ∈ m.list, j ≠ n := fun j hj hjn => hmem (hjn ▸ hj)
    refine ⟨by simpa using h1, by simpa using h2, ?_, ?_, ?_, ?_, ?_⟩
    · rw [List.nodup_append]
      exact ⟨h3, List.nodup_singleton n, by simpa [List.disjoint_right] using hmem⟩
    · intro j hj
      rcases List.mem_append.1 hj with hj1 | hj2
      · exact h4 j hj1
      · simpa using (List.mem_singleton.1 hj2) ▸ hn
    · intro j hj
      rcases List.mem_append.1 hj with hj1 | hj2
      · rw [getD_set_ne _ _ _ _ _ (fun he => (hne j hj1) he.symm)]
        exact h5 j hj1
      · rw [List.mem_singleton.1 hj2]
        exact getD_set_self _ _ _ _ (h1 ▸ hn)
    · intro j hjlt hjm
      by_cases hjn : j = n
      · simp [hjn]
      · rw [getD_set_ne _ _ _ _ _ (fun he => hjn he.symm)] at hjm
        exact List.mem_append_left _ (h6 j hjlt hjm)
    · intro k hk
      simp only [List.length_append, List.length_singleton] at hk
      by_cases hke : k < m.list.length
      · rw [getD_append_left _ _ _ _ hke]
        have hmem2 : m.list.getD k 0 ∈ m.list := by
          rw [List.getD_eq_getElem _ _ hke]
          exact List.getElem_mem hke
        rw [getD_set_ne _ _ _ _ _ (fun he => (hne _ hmem2) he.symm)]
        exact h7 k hke
      · have hkeq : k = m.list.length := by omega
        subst hkeq
        rw [getD_append_length]
        exact getD_set_self _ _ _ _ (h2 ▸ hn)

theorem clear_marked_getD (list : List Nat) (marked : List Bool) (j : Nat) :
    (list.foldl (fun acc v => acc.set v false) marked).getD j false =
      if j ∈ list then false else marked.getD j false := by
  induction list generalizing marked with
  | nil => simp
  | cons v vs ih =>
    simp only [List.foldl_cons, ih, List.mem_cons]
    by_cases hj : j ∈ vs
    · simp [hj]
    · by_cases hjv : j = v
      · subst hjv
        simp only [hj, if_false, if_pos (Or.inl rfl)]
        exact getD_set_self_of_eq _ _ _
      · simp only [hj, if_false]
        rw [if_neg (by tauto)]
        exact getD_set_ne _ _ _ _ _ (fun he => hjv he.symm)

theorem foldl_set_false_length (list : List Nat) (marked : List Bool) :
    (list.foldl (fun acc v => acc.set v false) marked).length = marked.length := by
  induction list generalizing marked with
  | nil => rfl
  | cons v vs ih => simp [ih]

theorem MarkList.clear_list (m : MarkList) : m.clear.list = [] := rfl

theorem MarkList.clear_len (m : MarkList) : m.clear.len = m.len := rfl

theorem MarkList.clear_index (m : MarkList) : m.clear.index = m.index := rfl

theorem MarkList.clear_marked_length (m : MarkList) :
    m.clear.marked.length = m.marked.length := foldl_set_false_length _ _

theorem MarkList.clear_unmarked {m : MarkList} (hwf : m.WF) (j : Nat) :
    m.clear.marked.getD j false = false := by
  show (m.list.foldl (fun acc v => acc.set v false) m.marked).getD j false = false
  rw [clear_marked_getD]
  by_cases hj : j ∈ m.list
  · simp [hj]
  · rw [if_neg hj]
    exact m.not_marked_of_not_mem hwf hj

theorem MarkList.clear_WF {m : MarkList} (hwf : m.WF) : m.clear.WF := by
  refine ⟨?_, ?_, ?_, ?_, ?_, ?_, ?_⟩
  · rw [m.clear_marked_length, m.clear_len, hwf.1]
  · rw [m.clear_index, m.clear_len, hwf.2.1]
  · rw [m.clear_list]; exact List.nodup_nil
  · rw [m.clear_list]; intro j hj; simp at hj
  · rw [m.clear_list]; intro j hj; simp at hj
  · intro j _ hm
    rw [m.clear_unmarked hwf j] at hm
    exact absurd hm (by simp)
  · rw [m.clear_list]; intro k hk; simp at hk

theorem MarkList.new_WF (n : Nat) : (MarkList.new n).WF := by
  refine ⟨by simp [MarkList.new], by simp [MarkList.new], List.nodup_nil, ?_, ?_, ?_, ?_⟩
  · intro j hj; simp [MarkList.new] at hj
  · intro j hj; simp [MarkList.new] at hj
  · intro j hjn hm
    have : (List.replicate n false).getD j false = false := by
      by_cases h : j < n
      · rw [List.getD_eq_getElem _ _ (by simpa using h)]
        simp
      · rw [List.getD_eq_default]; simp; omega
    rw [show (MarkList.new n).marked = List.replicate n false from rfl, this] at hm
    exact absurd hm (by simp)
  · intro k hk; simp [MarkList.new] at hk

theorem countP_true_eq (L : List Bool) :
    L.countP (fun b => b) =
      ((List.range L.length).filter (fun i => L.getD i false)).length := by
  induction L with
  | nil => simp
  | cons b t ih =>
    rw [List.countP_cons, List.length_cons, List.range_succ_eq_map, List.filter_cons,
      List.filter_map]
    have hcomp : ((fun i => (b :: t).getD i false) ∘ Nat.succ) = fun i => t.getD i false := by
      funext i
      simp [List.getD_cons_succ]
    rw [hcomp]
    by_cases hb : b = true
    · simp [hb, ih]
    · have hb2 : b = false := by simpa using hb
      simp [hb2, ih]

theorem length_eq_of_nodup_of_mem_iff {l1 l2 : List Nat} (h1 : l1.Nodup)
    (h2 : l2.Nodup) (hmem : ∀ x, x ∈ l1 ↔ x ∈ l2) : l1.length = l2.length := by
  rw [← List.toFinset_card_of_nodup h1, ← List.toFinset_card_of_nodup h2]
  congr 1
  ext x
  simp [hmem]

theorem MarkList.WF_Inv {m : MarkList} (hwf : m.WF) : m.Inv := by
  obtain ⟨h1, h2, h3, h4, h5, h6, h7⟩ := hwf
  refine ⟨?_, h7⟩
  rw [countP_true_eq]
  refine length_eq_of_nodup_of_mem_iff h3 (List.Nodup.filter _ (List.nodup_range _)) ?_
  intro x
  simp only [List.mem_filter, List.mem_range]
  constructor
  · intro hx
    exact ⟨h1 ▸ h4 x hx, by simpa using h5 x hx⟩
  · intro ⟨hxl, hxm⟩
    exact h6 x (h1 ▸ hxl) (by simpa using hxm)

end MarkListLemmas

section MarkingLemmas

theorem mem_addNew (acc ns : List Nat) (j : Nat) :
    j ∈ addNew acc ns ↔ j ∈ acc ∨ j ∈ ns := by
  induction ns generalizing acc with
  | nil => simp [addNew]
  | cons n rest ih =>
    rw [addNew]
    by_cases hn : n ∈ acc
    · rw [if_pos hn, ih]
      simp only [List.mem_cons]
      constructor
      · tauto
      · rintro (h | rfl | h)
        · tauto
        · exact Or.inl hn
        · tauto
    · rw [if_neg hn, ih]
      simp only [List.mem_append, List.mem_singleton, List.mem_cons]
      tauto

theorem addNew_nodup (ns : List Nat) : ∀ acc : List Nat, acc.Nodup →
    (addNew acc ns).Nodup := by
  induction ns with
  | nil => intro acc h; exact h
  | cons n rest ih =>
    intro acc h
    rw [addNew]
    by_cases hn : n ∈ acc
    · rw [if_pos hn]; exact ih acc h
    · rw [if_neg hn]
      refine ih _ ?_
      rw [List.nodup_append]
      exact ⟨h, List.nodup_singleton n, by simpa [List.disjoint_right] using hn⟩

theorem addNew_eq_append (ns : List Nat) : ∀ acc : List Nat, ns.Nodup →
    (∀ n ∈ ns, n ∉ acc) → addNew acc ns = acc ++ ns := by
  induction ns with
  | nil => intro acc _ _; simp [addNew]
  | cons n rest ih =>
    intro acc hnd hdis
    rw [addNew, if_neg (hdis n (List.mem_cons_self n rest))]
    rw [ih (acc ++ [n]) (List.Nodup.of_cons hnd) ?_]
    · simp
    · intro r hr
      simp only [List.mem_append, List.mem_singleton]
      rintro (h | rfl)
      · exact hdis r (List.mem_cons_of_mem _ hr) h
      · exact (List.nodup_cons.1 hnd).1 hr

theorem foldl_mark_spec (ns : List Nat) : ∀ m : MarkList, m.WF →
    (∀ n ∈ ns, n < m.len) →
    (ns.foldl MarkList.mark m).list = addNew m.list ns ∧
    (ns.foldl MarkList.mark m).WF ∧
    (ns.foldl MarkList.mark m).len = m.len := by
  induction ns with
  | nil => intro m hwf _; exact ⟨rfl, hwf, rfl⟩
  | cons n rest ih =>
    intro m hwf hlt
    have hnlt : n < m.len := hlt n (List.mem_cons_self n rest)
    have hrest : ∀ x ∈ rest, x < m.len := fun x hx => hlt x (List.mem_cons_of_mem _ hx)
    simp only [List.foldl_cons]
    by_cases hn : n ∈ m.list
    · rw [MarkList.mark_of_marked (hwf.2.2.2.2.1 n hn),
        show addNew m.list (n :: rest) = addNew m.list rest from by
          rw [addNew, if_pos hn]]
      exact ih m hwf hrest
    · have hwf2 : (m.mark n).WF := MarkList.mark_WF hwf hnlt
      have hlist2 : (m.mark n).list = m.list ++ [n] := by
        rw [MarkList.mark_not_mem hwf hn]
      have hlen2 : (m.mark n).len = m.len := by
        rw [MarkList.mark_not_mem hwf hn]
      have hres := ih (m.mark n) hwf2 (by rw [hlen2]; exact hrest)
      rw [hlist2, hlen2] at hres
      rw [show addNew m.list (n :: rest) = addNew (m.list ++ [n]) rest from by
        rw [addNew, if_neg hn]]
      exact hres

theorem foldl_mark_mem (ns : List Nat) (m : MarkList) (hwf : m.WF)
    (hlt : ∀ n ∈ ns, n < m.len) (j : Nat) :
    j ∈ (ns.foldl MarkList.mark m).list ↔ j ∈ m.list ∨ j ∈ ns := by
  rw [(foldl_mark_spec ns m hwf hlt).1, mem_addNew]

theorem markCells_ok (ckt : BookshelfCircuit) (cs : List Nat) :
    ∀ (cm nm : MarkList) (dup : Bool),
      cm.WF → cs.Nodup → (∀ c ∈ cs, c < cm.len) → (∀ c ∈ cs, c ∉ cm.list) →
      markCells ckt cs cm.list.length cm nm dup =
        (none, cs.foldl MarkList.mark cm,
          (netSeq ckt cs).foldl MarkList.mark nm, dup) := by
  induction cs with
  | nil =>
    intro cm nm dup _ _ _ _
    simp [markCells, netSeq]
  | cons c rest ih =>
    intro cm nm dup hwf hnd hlt hnotmem
    have hc : c < cm.len := hlt c (List.mem_cons_self c rest)
    have hcm : c ∉ cm.list := hnotmem c (List.mem_cons_self c rest)
    have hmarkc := MarkList.mark_not_mem hwf hcm
    have hlist2 : (cm.mark c).list = cm.list ++ [c] := by rw [hmarkc]
    have hlen2 : (cm.mark c).len = cm.len := by rw [hmarkc]
    have hwf2 : (cm.mark c).WF := MarkList.mark_WF hwf hc
    simp only [markCells]
    rw [if_pos (show c < cm.marked.length from hwf.1 ▸ hc)]
    rw [MarkList.not_marked_of_not_mem hwf hcm, Bool.or_false]
    rw [if_pos (show cm.list.length < (cm.mark c).list.length from by
      rw [hlist2]; simp)]
    rw [show (cm.mark c).list.getD cm.list.length 0 = c from by
      rw [hlist2]; exact getD_append_length _ [] _ _]
    have hstep : cm.list.length + 1 = (cm.mark c).list.length := by
      rw [hlist2]; simp
    rw [hstep]
    rw [ih (cm.mark c)
      ((ckt.cells.getD c dCell).pins.foldl (fun m p => m.mark p.parent_net) nm)
      dup hwf2 (List.Nodup.of_cons hnd)
      (fun x hx => hlen2 ▸ hlt x (List.mem_cons_of_mem _ hx))
      (fun x hx => by
        rw [hlist2]
        simp only [List.mem_append, List.mem_singleton]
        rintro (h | rfl)
        · exact hnotmem x (List.mem_cons_of_mem _ hx) h
        · exact (List.nodup_cons.1 hnd).1 hx)]
    rw [List.foldl_cons]
    rw [show netSeq ckt (c :: rest) =
        ((ckt.cells.getD c dCell).pins.map fun p => p.parent_net) ++ netSeq ckt rest
      from by simp [netSeq]]
    rw [List.foldl_append, List.foldl_map]

end MarkingLemmas

theorem srcTouch_eq (ckt : BookshelfCircuit) (cm : MarkList) (hor : Bool)
    (sp : ℚ) (net : Net) :
    srcTouch ckt cm hor sp net = net.pins.any (srcPred ckt cm hor sp) := rfl

theorem sinkTouch_eq (ckt : BookshelfCircuit) (cm : MarkList) (hor : Bool)
    (sp : ℚ) (net : Net) :
    sinkTouch ckt cm hor sp net = net.pins.any (sinkPred ckt cm hor sp) := rfl

theorem getD_replicate_self {α : Type} (n j : Nat) (a : α) :
    (List.replicate n a).getD j a = a := by
  by_cases h : j < n
  · rw [List.getD_eq_getElem _ _ (by simpa using h)]
    simp
  · rw [List.getD_eq_default]
    simp
    omega

section ClassifyLemmas

theorem classify_pins_spec (ckt : BookshelfCircuit) (cm : MarkList)
    (hor : Bool) (sp : ℚ) (tp : Bool) (idx : Nat) (pins : List PinRef) :
    ∀ acc : NetClass, idx < acc.sources.length → idx < acc.sinks.length →
      (pins.foldl (classifyPin ckt cm hor sp tp idx) acc).cardinality.length
          = acc.cardinality.length ∧
      (pins.foldl (classifyPin ckt cm hor sp tp idx) acc).sources.length
          = acc.sources.length ∧
      (pins.foldl (classifyPin ckt cm hor sp tp idx) acc).sinks.length
          = acc.sinks.length ∧
      (∀ j, j ≠ idx →
        (pins.foldl (classifyPin ckt cm hor sp tp idx) acc).sources.getD j false
            = acc.sources.getD j false ∧
        (pins.foldl (classifyPin ckt cm hor sp tp idx) acc).sinks.getD j false
            = acc.sinks.getD j false) ∧
      (pins.foldl (classifyPin ckt cm hor sp tp idx) acc).sources.getD idx false
          = (acc.sources.getD idx false || (tp && pins.any (srcPred ckt cm hor sp))) ∧
      (pins.foldl (classifyPin ckt cm hor sp tp idx) acc).sinks.getD idx false
          = (acc.sinks.getD idx false || (tp && pins.any (sinkPred ckt cm hor sp))) := by
  induction pins with
  | nil =>
    intro acc h1 h2
    simp
  | cons pr rest ih =>
    intro acc hs hk
    simp only [List.foldl_cons, List.any_cons]
    by_cases hm : cm.marked.getD pr.parent_cell false
    · have hstep : classifyPin ckt cm hor sp tp idx acc pr =
          { acc with cardinality :=
              acc.cardinality.set idx (acc.cardinality.getD idx 0 + 1) } := by
        unfold classifyPin
        exact if_pos hm
      rw [hstep]
      obtain ⟨r1, r2, r3, r4, r5, r6⟩ := ih
        { acc with cardinality :=
            acc.cardinality.set idx (acc.cardinality.getD idx 0 + 1) }
        (by simpa using hs) (by simpa using hk)
      have hps : srcPred ckt cm hor sp pr = false := by
        unfold srcPred; rw [hm]; rfl
      have hpk : sinkPred ckt cm hor sp pr = false := by
        unfold sinkPred; rw [hm]; rfl
      simp only [hps, hpk, Bool.false_or]
      refine ⟨by simpa using r1, by simpa using r2, by simpa using r3,
        ?_, by simpa using r5, by simpa using r6⟩
      intro j hj
      have hr := r4 j hj
      exact ⟨by simpa using hr.1, by simpa using hr.2⟩
    · have hm2 : cm.marked.getD pr.parent_cell false = false := by
        cases hx : cm.marked.getD pr.parent_cell false
        · rfl
        · exact absurd hx hm
      by_cases htp : tp
      · by_cases hlt2 : (if hor then (ckt.pinloc pr).2 else (ckt.pinloc pr).1) < sp
        · have hstep : classifyPin ckt cm hor sp tp idx acc pr =
              { acc with sources := acc.sources.set idx true } := by
            unfold classifyPin
            rw [if_neg hm, if_pos htp]
            exact if_pos hlt2
          rw [hstep]
          obtain ⟨r1, r2, r3, r4, r5, r6⟩ :=
            ih { acc with sources := acc.sources.set idx true }
              (by simpa using hs) (by simpa using hk)
          have hpt : srcPred ckt cm hor sp pr = true := by
            unfold srcPred; rw [hm2]; simp [hlt2]
          have hpf : sinkPred ckt cm hor sp pr = false := by
            unfold sinkPred; rw [hm2]; simp [hlt2]
          refine ⟨by simpa using r1, by simpa using r2, by simpa using r3,
            ?_, ?_, ?_⟩
          · intro j hj
            obtain ⟨s1, s2⟩ := r4 j hj
            refine ⟨?_, by simpa using s2⟩
            rw [s1]
            show (acc.sources.set idx true).getD j false = acc.sources.getD j false
            exact getD_set_ne _ _ _ _ _ fun he => hj he.symm
          · have r5x : (List.foldl (classifyPin ckt cm hor sp tp idx)
                { acc with sources := acc.sources.set idx true } rest).sources.getD idx false
                = ((acc.sources.set idx true).getD idx false ||
                  (tp && rest.any (srcPred ckt cm hor sp))) := r5
            rw [r5x, getD_set_self _ _ _ _ hs]
            simp [hpt, htp]
          · have r6x : (List.foldl (classifyPin ckt cm hor sp tp idx)
                { acc with sources := acc.sources.set idx true } rest).sinks.getD idx false
                = (acc.sinks.getD idx false ||
                  (tp && rest.any (sinkPred ckt cm hor sp))) := r6
            rw [r6x]
            simp [hpf]
        · have hstep : classifyPin ckt cm hor sp tp idx acc pr =
              { acc with sinks := acc.sinks.set idx true } := by
            unfold classifyPin
            rw [if_neg hm, if_pos htp]
            exact if_neg hlt2
          rw [hstep]
          obtain ⟨r1, r2, r3, r4, r5, r6⟩ :=
            ih { acc with sinks := acc.sinks.set idx true }
              (by simpa using hs) (by simpa using hk)
          have hpt : sinkPred ckt cm hor sp pr = true := by
            unfold sinkPred; rw [hm2]; simp [hlt2]
          have hpf : srcPred ckt cm hor sp pr = false := by
            unfold srcPred; rw [hm2]; simp [hlt2]
          refine ⟨by simpa using r1, by simpa using r2, by simpa using r3,
            ?_, ?_, ?_⟩
          · intro j hj
            obtain ⟨s1, s2⟩ := r4 j hj
            refine ⟨by simpa using s1, ?_⟩
            rw [s2]
            show (acc.sinks.set idx true).getD j false = acc.sinks.getD j false
            exact getD_set_ne _ _ _ _ _ fun he => hj he.symm
          · have r5x : (List.foldl (classifyPin ckt cm hor sp tp idx)
                { acc with sinks := acc.sinks.set idx true } rest).sources.getD idx false
                = (acc.sources.getD idx false ||
                  (tp && rest.any (srcPred ckt cm hor sp))) := r5
            rw [r5x]
            simp [hpf]
          · have r6x : (List.foldl (classifyPin ckt cm hor sp tp idx)
                { acc with sinks := acc.sinks.set idx true } rest).sinks.getD idx false
                = ((acc.sinks.set idx true).getD idx false ||
                  (tp && rest.any (sinkPred ckt cm hor sp))) := r6
            rw [r6x, getD_set_self _ _ _ _ hk]
            simp [hpt, htp]
      · have hstep : classifyPin ckt cm hor sp tp idx acc pr = acc := by
          unfold classifyPin
          rw [if_neg hm]
          exact if_neg htp
        rw [hstep]
        have h0 : tp = false := by
          cases hx : tp
          · rfl
          · exact absurd hx htp
        obtain ⟨r1, r2, r3, r4, r5, r6⟩ := ih acc hs hk
        refine ⟨r1, r2, r3, r4, ?_, ?_⟩
        · rw [r5]; simp [h0]
        · rw [r6]; simp [h0]

theorem classify_outer (ckt : BookshelfCircuit) (cm nm : MarkList)
    (hor : Bool) (sp : ℚ) (tp : Bool) (l : List Nat) :
    ∀ (t : Nat) (acc : NetClass),
      (∀ k, k < l.length → nm.index.getD (l.getD k 0) 0 = t + k) →
      t + l.length ≤ acc.sources.length →
      acc.sources.length = acc.sinks.length →
      ((l.foldl (fun a net_id =>
          (ckt.nets.getD net_id dNet).pins.foldl
            (classifyPin ckt cm hor sp tp (nm.index.getD net_id 0)) a)
          acc).sources.length = acc.sources.length ∧
       (l.foldl (fun a net_id =>
          (ckt.nets.getD net_id dNet).pins.foldl
            (classifyPin ckt cm hor sp tp (nm.index.getD net_id 0)) a)
          acc).sinks.length = acc.sinks.length ∧
       (∀ j, j < t ∨ t + l.length ≤ j →
         (l.foldl (fun a net_id =>
            (ckt.nets.getD net_id dNet).pins.foldl
              (classifyPin ckt cm hor sp tp (nm.index.getD net_id 0)) a)
            acc).sources.getD j false = acc.sources.getD j false ∧
         (l.foldl (fun a net_id =>
            (ckt.nets.getD net_id dNet).pins.foldl
              (classifyPin ckt cm hor sp tp (nm.index.getD net_id 0)) a)
            acc).sinks.getD j false = acc.sinks.getD j false) ∧
       (∀ j, t ≤ j → j < t + l.length →
         (l.foldl (fun a net_id =>
            (ckt.nets.getD net_id dNet).pins.foldl
              (classifyPin ckt cm hor sp tp (nm.index.getD net_id 0)) a)
            acc).sources.getD j false =
           (acc.sources.getD j false ||
             (tp && srcTouch ckt cm hor sp (ckt.nets.getD (l.getD (j - t) 0) dNet))) ∧
         (l.foldl (fun a net_id =>
            (ckt.nets.getD net_id dNet).pins.foldl
              (classifyPin ckt cm hor sp tp (nm.index.getD net_id 0)) a)
            acc).sinks.getD j false =
           (acc.sinks.getD j false ||
             (tp && sinkTouch ckt cm hor sp (ckt.nets.getD (l.getD (j - t) 0) dNet))))) := by
  induction l with
  | nil =>
    intro t acc _ _ _
    refine ⟨rfl, rfl, fun j _ => ⟨rfl, rfl⟩, fun j hj1 hj2 => ?_⟩
    simp only [List.length_nil] at hj2
    exact absurd hj2 (by omega)
  | cons n rest ih =>
    intro t acc hidx hlen heq
    have hidx0 : nm.index.getD n 0 = t := by
      have h00 := hidx 0 (by simp)
      simpa using h00
    simp only [List.foldl_cons, hidx0]
    have hts : t < acc.sources.length := by
      simp only [List.length_cons] at hlen
      omega
    have htk : t < acc.sinks.length := heq ▸ hts
    obtain ⟨p1, p2, p3, p4, p5, p6⟩ :=
      classify_pins_spec ckt cm hor sp tp t (ckt.nets.getD n dNet).pins acc hts htk
    set acc1 := (ckt.nets.getD n dNet).pins.foldl
      (classifyPin ckt cm hor sp tp t) acc with hacc1
    have hidxr : ∀ k, k < rest.length →
        nm.index.getD (rest.getD k 0) 0 = (t + 1) + k := by
      intro k hkr
      have hkk := hidx (k + 1) (by simpa using Nat.succ_lt_succ hkr)
      simp only [List.getD_cons_succ] at hkk
      omega
    have hlenr : (t + 1) + rest.length ≤ acc1.sources.length := by
      rw [p2]
      simp only [List.length_cons] at hlen
      omega
    have heqr : acc1.sources.length = acc1.sinks.length := by
      rw [p2, p3]; exact heq
    obtain ⟨q1, q2, q3, q4⟩ := ih (t + 1) acc1 hidxr hlenr heqr
    refine ⟨q1.trans p2, q2.trans p3, ?_, ?_⟩
    · intro j hj
      simp only [List.length_cons] at hj
      have hjt : j ≠ t := by rcases hj with h | h <;> omega
      have hcase : j < t + 1 ∨ (t + 1) + rest.length ≤ j := by
        rcases hj with h | h
        · exact Or.inl (by omega)
        · exact Or.inr (by omega)
      have hq := q3 j hcase
      have hp := p4 j hjt
      exact ⟨hq.1.trans hp.1, hq.2.trans hp.2⟩
    · intro j hj1 hj2
      simp only [List.length_cons] at hj2
      by_cases hjt : j = t
      · subst hjt
        have hq := q3 j (Or.inl (by omega))
        have hsub : j - j = 0 := by omega
        rw [hsub]
        simp only [List.getD_cons_zero]
        rw [hq.1, hq.2, p5, p6, srcTouch_eq, sinkTouch_eq]
        exact ⟨rfl, rfl⟩
      · have hq := q4 j (by omega) (by omega)
        have hp := p4 j hjt
        have hsub : j - t = (j - (t + 1)) + 1 := by omega
        rw [hsub]
        simp only [List.getD_cons_succ]
        rw [hq.1, hq.2, hp.1, hp.2]
        exact ⟨rfl, rfl⟩

theorem classifyNets_getD (ckt : BookshelfCircuit) (cm nm : MarkList)
    (hor : Bool) (sp : ℚ) (tp : Bool) (hnm : nm.WF) (j : Nat)
    (hj : j < nm.list.length) :
    (classifyNets ckt cm nm hor sp tp).sources.getD j false
        = (tp && srcTouch ckt cm hor sp (ckt.nets.getD (nm.list.getD j 0) dNet)) ∧
    (classifyNets ckt cm nm hor sp tp).sinks.getD j false
        = (tp && sinkTouch ckt cm hor sp (ckt.nets.getD (nm.list.getD j 0) dNet)) := by
  obtain ⟨_, _, _, hact⟩ := classify_outer ckt cm nm hor sp tp nm.list 0
    ⟨List.replicate nm.list.length 0, List.replicate nm.list.length false,
      List.replicate nm.list.length false⟩
    (fun k hk => by simpa using hnm.2.2.2.2.2.2 k hk)
    (by simp) (by simp)
  have h := hact j (Nat.zero_le j) (by simpa using hj)
  unfold classifyNets
  simp only [Nat.sub_zero] at h
  rw [h.1, h.2]
  simp [getD_replicate_self]

end ClassifyLemmas

section EmitLemmas

theorem pinfold_spec (cm : MarkList) (pins : List PinRef) :
    ∀ hg : HyperGraph,
      pins.foldl (fun hgp pr =>
        if cm.marked.getD pr.parent_cell false then
          { hgp with eptr := hgp.eptr ++ [cm.index.getD pr.parent_cell 0] }
        else hgp) hg
      = { hg with eptr := hg.eptr ++
          ((pins.filter fun pr => cm.marked.getD pr.parent_cell false).map
            fun pr => cm.index.getD pr.parent_cell 0) } := by
  induction pins with
  | nil => intro hg; simp
  | cons pr rest ih =>
    intro hg
    simp only [List.foldl_cons, List.filter_cons]
    by_cases hm : cm.marked.getD pr.parent_cell false
    · rw [if_pos hm, ih]
      simp [hm, -List.getD_eq_getElem?_getD]
    · rw [if_neg hm, ih]
      simp [hm, -List.getD_eq_getElem?_getD]

theorem emitNet_spec (ckt : BookshelfCircuit) (cm nm : MarkList) (nc : NetClass)
    (tp : Bool) (ew : Nat) (src_id sink_id : Nat) (hg : HyperGraph)
    (net_id : Nat) :
    emitNet ckt cm nm nc tp ew src_id sink_id hg net_id =
      { hg with
        eptr := hg.eptr ++ netSegment ckt cm nm nc tp src_id sink_id net_id
        hewt := hg.hewt ++ [netWeight ew
          (nc.sources.getD (nm.index.getD net_id 0) false)
          (nc.sinks.getD (nm.index.getD net_id 0) false)]
        eind := hg.eind ++ [hg.eptr.length +
          (netSegment ckt cm nm nc tp src_id sink_id net_id).length] } := by
  simp only [emitNet]
  rw [pinfold_spec]
  rcases ew with _ | _ | ew
  · by_cases htp : tp
    · by_cases hsrc : nc.sources.getD (nm.index.getD net_id 0) false
      · by_cases hsnk : nc.sinks.getD (nm.index.getD net_id 0) false
        · simp [netSegment, netWeight, internalPins, htp, hsrc, hsnk,
            List.append_assoc, -List.getD_eq_getElem?_getD]
        · simp [netSegment, netWeight, internalPins, htp, hsrc, hsnk,
            List.append_assoc, -List.getD_eq_getElem?_getD]
      · by_cases hsnk : nc.sinks.getD (nm.index.getD net_id 0) false
        · simp [netSegment, netWeight, internalPins, htp, hsrc, hsnk,
            List.append_assoc, -List.getD_eq_getElem?_getD]
        · simp [netSegment, netWeight, internalPins, htp, hsrc, hsnk,
            List.append_assoc, -List.getD_eq_getElem?_getD]
    · simp [netSegment, netWeight, internalPins, htp, List.append_assoc,
        -List.getD_eq_getElem?_getD]
  · by_cases htp : tp
    · by_cases hsrc : nc.sources.getD (nm.index.getD net_id 0) false
      · by_cases hsnk : nc.sinks.getD (nm.index.getD net_id 0) false
        · simp [netSegment, netWeight, internalPins, htp, hsrc, hsnk,
            List.append_assoc, -List.getD_eq_getElem?_getD]
        · simp [netSegment, netWeight, internalPins, htp, hsrc, hsnk,
            List.append_assoc, -List.getD_eq_getElem?_getD]
      · by_cases hsnk : nc.sinks.getD (nm.index.getD net_id 0) false
        · simp [netSegment, netWeight, internalPins, htp, hsrc, hsnk,
            List.append_assoc, -List.getD_eq_getElem?_getD]
        · simp [netSegment, netWeight, internalPins, htp, hsrc, hsnk,
            List.append_assoc, -List.getD_eq_getElem?_getD]
    · by_cases hsrc : nc.sources.getD (nm.index.getD net_id 0) false
      · by_cases hsnk : nc.sinks.getD (nm.index.getD net_id 0) false
        · simp [netSegment, netWeight, internalPins, htp, hsrc, hsnk,
            List.append_assoc, -List.getD_eq_getElem?_getD]
        · simp [netSegment, netWeight, internalPins, htp, hsrc, hsnk,
            List.append_assoc, -List.getD_eq_getElem?_getD]
      · by_cases hsnk : nc.sinks.getD (nm.index.getD net_id 0) false
        · simp [netSegment, netWeight, internalPins, htp, hsrc, hsnk,
            List.append_assoc, -List.getD_eq_getElem?_getD]
        · simp [netSegment, netWeight, internalPins, htp, hsrc, hsnk,
            List.append_assoc, -List.getD_eq_getElem?_getD]
  · by_cases htp : tp
    · by_cases hsrc : nc.sources.getD (nm.index.getD net_id 0) false
      · by_cases hsnk : nc.sinks.getD (nm.index.getD net_id 0) false
        · simp [netSegment, netWeight, internalPins, htp, hsrc, hsnk,
            List.append_assoc, -List.getD_eq_getElem?_getD]
        · simp [netSegment, netWeight, internalPins, htp, hsrc, hsnk,
            List.append_assoc, -List.getD_eq_getElem?_getD]
      · by_cases hsnk : nc.sinks.getD (nm.index.getD net_id 0) false
        · simp [netSegment, netWeight, internalPins, htp, hsrc, hsnk,
            List.append_assoc, -List.getD_eq_getElem?_getD]
        · simp [netSegment, netWeight, internalPins, htp, hsrc, hsnk,
            List.append_assoc, -List.getD_eq_getElem?_getD]
    · simp [netSegment, netWeight, internalPins, htp, List.append_assoc,
        -List.getD_eq_getElem?_getD]

theorem emit_fold_spec (ckt : BookshelfCircuit) (cm nm : MarkList)
    (nc : NetClass) (tp : Bool) (ew : Nat) (src_id sink_id : Nat)
    (l : List Nat) :
    ∀ hg : HyperGraph,
      l.foldl (emitNet ckt cm nm nc tp ew src_id sink_id) hg =
        { hg with
          eptr := hg.eptr ++
            (l.map (netSegment ckt cm nm nc tp src_id sink_id)).flatten
          hewt := hg.hewt ++ l.map (fun net_id => netWeight ew
            (nc.sources.getD (nm.index.getD net_id 0) false)
            (nc.sinks.getD (nm.index.getD net_id 0) false))
          eind := hg.eind ++ offsets hg.eptr.length
            (l.map (netSegment ckt cm nm nc tp src_id sink_id)) } := by
  induction l with
  | nil => intro hg; simp [offsets]
  | cons n rest ih =>
    intro hg
    simp only [List.foldl_cons, List.map_cons, List.flatten_cons, offsets]
    rw [emitNet_spec, ih]
    simp [List.append_assoc]

theorem length_offsets (ss : List (List Nat)) : ∀ base : Nat,
    (offsets base ss).length = ss.length := by
  induction ss with
  | nil => intro base; rfl
  | cons s rest ih => intro base; simp [offsets, ih]

theorem offsets_getLastD (ss : List (List Nat)) : ∀ base : Nat,
    (offsets base ss).getLastD base = base + ss.flatten.length := by
  induction ss with
  | nil => intro base; simp [offsets]
  | cons s rest ih =>
    intro base
    rw [offsets, List.getLastD_cons, ih]
    simp
    omega

theorem offsets_getD (ss : List (List Nat)) : ∀ (base j : Nat),
    j < ss.length →
      (offsets base ss).getD j 0 = base + ((ss.take (j + 1)).flatten).length := by
  induction ss with
  | nil => intro base j hj; simp at hj
  | cons s rest ih =>
    intro base j hj
    cases j with
    | zero => simp [offsets]
    | succ j2 =>
      rw [offsets, List.getD_cons_succ, ih _ j2 (by simpa using hj)]
      simp
      omega

end EmitLemmas

section BuildGraphLemmas

theorem MarkList.index_lt_of_mem {m : MarkList} (hwf : m.WF) {c : Nat}
    (hc : c ∈ m.list) : m.index.getD c 0 < m.list.length := by
  obtain ⟨k, hk, hke⟩ := List.mem_iff_getElem.1 hc
  have hidx := hwf.2.2.2.2.2.2 k hk
  rw [List.getD_eq_getElem _ _ hk, hke] at hidx
  rw [hidx]
  exact hk

theorem vtxfold_spec (ckt : BookshelfCircuit) (l : List Nat) :
    ∀ hg : HyperGraph,
      l.foldl (fun hgc cell_id =>
        { hgc with
          vtxwt := hgc.vtxwt ++ [ratTrunc (ckt.cells.getD cell_id dCell).area]
          part := hgc.part ++ [(-1 : Int)] }) hg
      = { hg with
          vtxwt := hg.vtxwt ++
            l.map fun cid => ratTrunc (ckt.cells.getD cid dCell).area
          part := hg.part ++ l.map fun _ => (-1 : Int) } := by
  induction l with
  | nil => intro hg; simp
  | cons c rest ih =>
    intro hg
    simp only [List.foldl_cons, List.map_cons]
    rw [ih]
    simp [List.append_assoc]

theorem build_graph_of_markCells_none (ckt : BookshelfCircuit)
    (cells : List Nat) (params : HyperParams) (cm nm : MarkList) (dup : Bool)
    (h : markCells ckt cells 0 params.cellmark.clear params.netmark.clear false
      = (none, cm, nm, dup)) :
    build_graph ckt cells params =
      { out := .ok (buildEmit ckt params cm nm)
        params := { params with cellmark := cm, netmark := nm }
        dupReported := dup } := by
  unfold build_graph
  rw [h]

theorem build_graph_of_markCells_some (ckt : BookshelfCircuit)
    (cells : List Nat) (params : HyperParams) (msg : String)
    (cm nm : MarkList) (dup : Bool)
    (h : markCells ckt cells 0 params.cellmark.clear params.netmark.clear false
      = (some msg, cm, nm, dup)) :
    build_graph ckt cells params =
      { out := .panicked msg
        params := { params with cellmark := cm, netmark := nm }
        dupReported := dup } := by
  unfold build_graph
  rw [h]

theorem buildEmit_spec (ckt : BookshelfCircuit) (params : HyperParams)
    (cm nm : MarkList) :
    buildEmit ckt params cm nm =
      { vtxwt := (cm.list.map fun cid => ratTrunc (ckt.cells.getD cid dCell).area)
          ++ (if params.term_prop then [1, 1] else [])
        hewt := nm.list.map fun nid => netWeight params.edgeweight
          ((classifyNets ckt cm nm params.horizontal params.split_point
            params.term_prop).sources.getD (nm.index.getD nid 0) false)
          ((classifyNets ckt cm nm params.horizontal params.split_point
            params.term_prop).sinks.getD (nm.index.getD nid 0) false)
        part := (cm.list.map fun _ => (-1 : Int))
          ++ (if params.term_prop then [0, 1] else [])
        eind := 0 :: offsets 0 (nm.list.map
          (netSegment ckt cm nm
            (classifyNets ckt cm nm params.horizontal params.split_point
              params.term_prop) params.term_prop
            (if params.term_prop then cm.list.length else 0)
            (if params.term_prop then cm.list.length + 1 else 0)))
        eptr := (nm.list.map
          (netSegment ckt cm nm
            (classifyNets ckt cm nm params.horizontal params.split_point
              params.term_prop) params.term_prop
            (if params.term_prop then cm.list.length else 0)
            (if params.term_prop then cm.list.length + 1 else 0))).flatten } := by
  simp only [buildEmit]
  rw [vtxfold_spec, emit_fold_spec]
  by_cases htp : params.term_prop
  · simp [htp, HyperGraph.new]
  · simp [htp, HyperGraph.new]

theorem build_graph_spec (ckt : BookshelfCircuit) (cells : List Nat)
    (params : HyperParams) (hp : params.WFFor ckt)
    (hnd : cells.Nodup) (hin : ∀ c ∈ cells, c < ckt.cells.length) :
    build_graph ckt cells params =
      { out := .ok
          { vtxwt := (cells.map fun cid => ratTrunc (ckt.cells.getD cid dCell).area)
              ++ (if params.term_prop then [1, 1] else [])
            hewt := hewtFinal ckt cells params
            part := (cells.map fun _ => (-1 : Int))
              ++ (if params.term_prop then [0, 1] else [])
            eind := 0 :: offsets 0 (segsFinal ckt cells params)
            eptr := (segsFinal ckt cells params).flatten }
        params := { params with
          cellmark := cmFinal cells params
          netmark := nmFinal ckt cells params }
        dupReported := false } := by
  obtain ⟨hcwf, hnwf, hclen, hnlen⟩ := hp
  have hmc := markCells_ok ckt cells params.cellmark.clear params.netmark.clear
    false (MarkList.clear_WF hcwf) hnd
    (fun c hc => by rw [MarkList.clear_len, hclen]; exact hin c hc)
    (fun c hc => by rw [MarkList.clear_list]; exact List.not_mem_nil c)
  have h0 : params.cellmark.clear.list.length = 0 := rfl
  rw [h0] at hmc
  rw [build_graph_of_markCells_none ckt cells params _ _ _ hmc]
  rw [buildEmit_spec]
  have hcl : (cells.foldl MarkList.mark params.cellmark.clear).list = cells := by
    have h := foldl_mark_spec cells params.cellmark.clear
      (MarkList.clear_WF hcwf)
      (fun c hc => by rw [MarkList.clear_len, hclen]; exact hin c hc)
    rw [h.1, MarkList.clear_list, addNew_eq_append cells [] hnd
      (fun n _ => List.not_mem_nil n)]
    simp
  simp only [cmFinal, nmFinal, ncFinal, segsFinal, hewtFinal]
  rw [hcl]

theorem getD_mem {α : Type} (l : List α) (i : Nat) (d : α)
    (h : i < l.length) : l.getD i d ∈ l := by
  rw [List.getD_eq_getElem _ _ h]
  exact List.getElem_mem h

theorem cmFinal_spec (ckt : BookshelfCircuit) (cells : List Nat)
    (params : HyperParams) (hp : params.WFFor ckt) (hnd : cells.Nodup)
    (hin : ∀ c ∈ cells, c < ckt.cells.length) :
    (cmFinal cells params).list = cells ∧ (cmFinal cells params).WF ∧
    (cmFinal cells params).len = ckt.cells.length := by
  have h := foldl_mark_spec cells params.cellmark.clear
    (MarkList.clear_WF hp.1)
    (fun c hc => by rw [MarkList.clear_len, hp.2.2.1]; exact hin c hc)
  refine ⟨?_, h.2.1, by rw [show (cmFinal cells params).len =
    (cells.foldl MarkList.mark params.cellmark.clear).len from rfl, h.2.2,
    MarkList.clear_len, hp.2.2.1]⟩
  show (cells.foldl MarkList.mark params.cellmark.clear).list = cells
  rw [h.1, MarkList.clear_list, addNew_eq_append cells [] hnd
    (fun n _ => List.not_mem_nil n)]
  simp

theorem netSeq_lt (ckt : BookshelfCircuit) (cells : List Nat)
    (hckt : ckt.WF) (hin : ∀ c ∈ cells, c < ckt.cells.length) :
    ∀ n ∈ netSeq ckt cells, n < ckt.nets.length := by
  intro n hn
  simp only [netSeq, List.mem_flatMap, List.mem_map] at hn
  obtain ⟨c, hc, p, hp, hpn⟩ := hn
  have hcell : ckt.cells.getD c dCell ∈ ckt.cells :=
    getD_mem _ _ _ (hin c hc)
  rw [← hpn]
  exact hckt.2.1 _ hcell p hp

theorem nmFinal_spec (ckt : BookshelfCircuit) (cells : List Nat)
    (params : HyperParams) (hckt : ckt.WF) (hp : params.WFFor ckt)
    (hin : ∀ c ∈ cells, c < ckt.cells.length) :
    (nmFinal ckt cells params).list = addNew [] (netSeq ckt cells) ∧
    (nmFinal ckt cells params).WF ∧
    (nmFinal ckt cells params).len = ckt.nets.length := by
  have h := foldl_mark_spec (netSeq ckt cells) params.netmark.clear
    (MarkList.clear_WF hp.2.1)
    (fun n hn => by
      rw [MarkList.clear_len, hp.2.2.2]
      exact netSeq_lt ckt cells hckt hin n hn)
  refine ⟨?_, h.2.1, by rw [show (nmFinal ckt cells params).len =
    ((netSeq ckt cells).foldl MarkList.mark params.netmark.clear).len from rfl,
    h.2.2, MarkList.clear_len, hp.2.2.2]⟩
  show ((netSeq ckt cells).foldl MarkList.mark params.netmark.clear).list = _
  rw [h.1, MarkList.clear_list]

theorem mem_nmFinal (ckt : BookshelfCircuit) (cells : List Nat)
    (params : HyperParams) (hckt : ckt.WF) (hp : params.WFFor ckt)
    (hin : ∀ c ∈ cells, c < ckt.cells.length) (n : Nat) :
    n ∈ (nmFinal ckt cells params).list ↔ n ∈ netSeq ckt cells := by
  rw [(nmFinal_spec ckt cells params hckt hp hin).1, mem_addNew]
  simp

end BuildGraphLemmas

section Claims

/-- C9: Every MarkList operation preserves the invariant (WF, which entails
the claim's invariant Inv: list.length equals the number of marked indices
and index[list[k]] = k for every position k in list): new(n) establishes it
with all n elements unmarked and list empty; mark(i) on an already-marked i
is a no-op; and after clear, marked[i] is false for every index i and list
is empty. -/
theorem C9_marklist_invariant :
    (∀ n : Nat, (MarkList.new n).WF ∧ (MarkList.new n).list = [] ∧
      ∀ j, (MarkList.new n).marked.getD j false = false) ∧
    (∀ (m : MarkList) (i : Nat), m.WF → i < m.len → (m.mark i).WF) ∧
    (∀ (m : MarkList) (i : Nat), m.marked.getD i false = true →
      m.mark i = m) ∧
    (∀ m : MarkList, m.WF → m.clear.WF) ∧
    (∀ m : MarkList, m.WF → m.clear.list = [] ∧
      ∀ j, m.clear.marked.getD j false = false) ∧
    (∀ m : MarkList, m.WF → m.Inv) := by
  refine ⟨?_, ?_, ?_, ?_, ?_, ?_⟩
  · intro n
    exact ⟨MarkList.new_WF n, rfl, fun j => getD_replicate_self n j false⟩
  · intro m i hwf hi
    exact MarkList.mark_WF hwf hi
  · intro m i h
    exact MarkList.mark_of_marked h
  · intro m hwf
    exact MarkList.clear_WF hwf
  · intro m hwf
    exact ⟨m.clear_list, fun j => m.clear_unmarked hwf j⟩
  · intro m hwf
    exact MarkList.WF_Inv hwf

theorem C9_marklist_invariant_witness :
    ((MarkList.new 2).mark 0).WF ∧
    ((MarkList.new 2).mark 0).mark 0 = (MarkList.new 2).mark 0 ∧
    ((MarkList.new 2).mark 0).clear.WF ∧
    ((MarkList.new 2).mark 0).clear.list = [] ∧
    ((MarkList.new 2).mark 0).clear.marked.getD 0 false = false ∧
    ((MarkList.new 2).mark 0).Inv :=
  ⟨C9_marklist_invariant.2.1 (MarkList.new 2) 0 (by decide) (by decide),
   C9_marklist_invariant.2.2.1 ((MarkList.new 2).mark 0) 0 (by decide),
   C9_marklist_invariant.2.2.2.1 ((MarkList.new 2).mark 0) (by decide),
   (C9_marklist_invariant.2.2.2.2.1 ((MarkList.new 2).mark 0) (by decide)).1,
   (C9_marklist_invariant.2.2.2.2.1 ((MarkList.new 2).mark 0) (by decide)).2 0,
   C9_marklist_invariant.2.2.2.2.2 ((MarkList.new 2).mark 0) (by decide)⟩

/-- C10: build_graph leaves every configuration field of the mutable
HyperParams unchanged at return — horizontal, split_point, partition, bias,
k, term_prop, passes, seed, and edgeweight — for every call (the only fields
it writes are the two MarkLists; the circuit is taken by shared reference in
the source and is not modifiable by the embedding). -/
theorem C10_frame_effect (ckt : BookshelfCircuit) (cells : List Nat)
    (params : HyperParams) :
    (build_graph ckt cells params).params.horizontal = params.horizontal ∧
    (build_graph ckt cells params).params.split_point = params.split_point ∧
    (build_graph ckt cells params).params.partition = params.partition ∧
    (build_graph ckt cells params).params.bias = params.bias ∧
    (build_graph ckt cells params).params.k = params.k ∧
    (build_graph ckt cells params).params.term_prop = params.term_prop ∧
    (build_graph ckt cells params).params.passes = params.passes ∧
    (build_graph ckt cells params).params.seed = params.seed ∧
    (build_graph ckt cells params).params.edgeweight = params.edgeweight := by
  unfold build_graph
  rcases markCells ckt cells 0 params.cellmark.clear params.netmark.clear false
    with ⟨o, cm, nm, dup⟩
  cases o
  · exact ⟨rfl, rfl, rfl, rfl, rfl, rfl, rfl, rfl, rfl⟩
  · exact ⟨rfl, rfl, rfl, rfl, rfl, rfl, rfl, rfl, rfl⟩

/-- C8: On the empty subset build_graph succeeds with zero real vertices and
zero real hyperedges (eind = [0], eptr = [], hewt = []); when term_prop is
enabled the two pseudo-vertices are still appended unconditionally: SOURCE
with weight 1 and fixed partition 0, then SINK with weight 1 and fixed
partition 1. -/
theorem C8_empty_subset (ckt : BookshelfCircuit) (params : HyperParams) :
    build_graph ckt [] params =
      { out := .ok
          { vtxwt := if params.term_prop then [1, 1] else []
            hewt := []
            part := if params.term_prop then [0, 1] else []
            eind := [0]
            eptr := [] }
        params := { params with
          cellmark := params.cellmark.clear
          netmark := params.netmark.clear }
        dupReported := false } := by
  have hmc : markCells ckt [] 0 params.cellmark.clear params.netmark.clear false
      = (none, params.cellmark.clear, params.netmark.clear, false) := rfl
  rw [build_graph_of_markCells_none ckt [] params _ _ _ hmc, buildEmit_spec]
  by_cases htp : params.term_prop
  · simp [htp, MarkList.clear_list, offsets]
  · simp [htp, MarkList.clear_list, offsets]

/-- C1: For every circuit, duplicate-free in-range subset and well-formed
context, build_graph returns a HyperGraph in which eind has length
(number of emitted hyperedges) + 1 with eind[0] = 0, eptr has length
eind[last], vtxwt and part have equal length, namely the subset size plus 2
exactly when term_prop is enabled, and every value stored in eptr is
strictly less than vtxwt's length. -/
theorem C1_output_shape (ckt : BookshelfCircuit) (cells : List Nat)
    (params : HyperParams) (hp : params.WFFor ckt)
    (hnd : cells.Nodup) (hin : ∀ c ∈ cells, c < ckt.cells.length) :
    ∃ hg : HyperGraph, (build_graph ckt cells params).out = .ok hg ∧
      hg.eind.length = hg.hewt.length + 1 ∧
      hg.hewt.length = (build_graph ckt cells params).params.netmark.list.length ∧
      hg.eind.getD 0 0 = 0 ∧
      hg.eptr.length = hg.eind.getLastD 0 ∧
      hg.vtxwt.length = hg.part.length ∧
      hg.vtxwt.length = cells.length + (if params.term_prop then 2 else 0) ∧
      ∀ v ∈ hg.eptr, v < hg.vtxwt.length := by
  obtain ⟨hcl, hcwf2, hclen2⟩ := cmFinal_spec ckt cells params hp hnd hin
  rw [build_graph_spec ckt cells params hp hnd hin]
  refine ⟨_, rfl, ?_, ?_, ?_, ?_, ?_, ?_, ?_⟩
  · simp [segsFinal, hewtFinal, length_offsets]
  · simp [hewtFinal]
  · rfl
  · show _ = (0 :: offsets 0 (segsFinal ckt cells params)).getLastD 0
    rw [List.getLastD_cons, offsets_getLastD]
    simp
  · by_cases htp : params.term_prop
    · simp [htp]
    · simp [htp]
  · by_cases htp : params.term_prop
    · simp [htp]
    · simp [htp]
  · intro v hv
    have hlen : ((cells.map fun cid => ratTrunc (ckt.cells.getD cid dCell).area)
        ++ (if params.term_prop then ([1, 1] : List Int) else [])).length
        = cells.length + (if params.term_prop then 2 else 0) := by
      by_cases htp : params.term_prop
      · simp [htp]
      · simp [htp]
    rw [hlen]
    rw [List.mem_flatten] at hv
    obtain ⟨s, hs, hvs⟩ := hv
    rw [segsFinal] at hs
    obtain ⟨nid, hnid, rfl⟩ := List.mem_map.1 hs
    rw [netSegment, List.append_assoc, List.mem_append] at hvs
    rcases hvs with hint | hrest
    · rw [internalPins] at hint
      obtain ⟨pr, hprf, rfl⟩ := List.mem_map.1 hint
      have hmk := (List.mem_filter.1 hprf).2
      have hmem : pr.parent_cell ∈ (cmFinal cells params).list :=
        MarkList.mem_of_marked hcwf2 (by simpa using hmk)
      have hltc := MarkList.index_lt_of_mem hcwf2 hmem
      rw [hcl] at hltc
      by_cases htp : params.term_prop
      · simp only [htp, if_true]; omega
      · simp only [htp, if_false]; omega
    · rw [List.mem_append] at hrest
      rcases hrest with hsrc | hsnk
      · by_cases hc : (params.term_prop &&
          (ncFinal ckt cells params).sources.getD
            ((nmFinal ckt cells params).index.getD nid 0) false)
        · rw [if_pos hc] at hsrc
          have htp : params.term_prop = true := by
            simp only [Bool.and_eq_true] at hc
            exact hc.1
          rw [List.mem_singleton.1 hsrc, htp]
          simp [hcl]
        · rw [if_neg hc] at hsrc
          exact absurd hsrc (List.not_mem_nil _)
      · by_cases hc : (params.term_prop &&
          (ncFinal ckt cells params).sinks.getD
            ((nmFinal ckt cells params).index.getD nid 0) false)
        · rw [if_pos hc] at hsnk
          have htp : params.term_prop = true := by
            simp only [Bool.and_eq_true] at hc
            exact hc.1
          rw [List.mem_singleton.1 hsnk, htp]
          simp [hcl]
        · rw [if_neg hc] at hsnk
          exact absurd hsnk (List.not_mem_nil _)

theorem C1_output_shape_witness :
    ∃ hg : HyperGraph, (build_graph cktEx [0] paramsEx).out = .ok hg ∧
      hg.eind.length = hg.hewt.length + 1 ∧
      hg.hewt.length = (build_graph cktEx [0] paramsEx).params.netmark.list.length ∧
      hg.eind.getD 0 0 = 0 ∧
      hg.eptr.length = hg.eind.getLastD 0 ∧
      hg.vtxwt.length = hg.part.length ∧
      hg.vtxwt.length = [0].length + (if paramsEx.term_prop then 2 else 0) ∧
      ∀ v ∈ hg.eptr, v < hg.vtxwt.length :=
  C1_output_shape cktEx [0] paramsEx (by decide) (by decide) (by decide)

/-- C5: In the classification pass with terminal propagation enabled, a
marked net's source flag is set exactly when some boundary pin (parent cell
unmarked) has its axis coordinate (y for a horizontal split, x for a
vertical one, computed by pinloc as cell position plus pin offset) strictly
before split_point, and its sink flag exactly when some boundary pin lies
at or after split_point; hence a net with a boundary pin whose boundary
pins all lie strictly before the split is marked source-only and never
sink, and a net with boundary pins on both sides is marked both. -/
theorem C5_terminal_propagation (ckt : BookshelfCircuit) (cm nm : MarkList)
    (horizontal : Bool) (split_point : ℚ) (hnm : nm.WF) (j : Nat)
    (hj : j < nm.list.length) :
    ((classifyNets ckt cm nm horizontal split_point true).sources.getD j false
        = srcTouch ckt cm horizontal split_point
          (ckt.nets.getD (nm.list.getD j 0) dNet)) ∧
    ((classifyNets ckt cm nm horizontal split_point true).sinks.getD j false
        = sinkTouch ckt cm horizontal split_point
          (ckt.nets.getD (nm.list.getD j 0) dNet)) ∧
    ((∃ pr ∈ (ckt.nets.getD (nm.list.getD j 0) dNet).pins,
        cm.marked.getD pr.parent_cell false = false) →
      (∀ pr ∈ (ckt.nets.getD (nm.list.getD j 0) dNet).pins,
        cm.marked.getD pr.parent_cell false = false →
          (if horizontal then (ckt.pinloc pr).2 else (ckt.pinloc pr).1)
            < split_point) →
      (classifyNets ckt cm nm horizontal split_point true).sources.getD j false
          = true ∧
      (classifyNets ckt cm nm horizontal split_point true).sinks.getD j false
          = false) ∧
    ((∃ pr ∈ (ckt.nets.getD (nm.list.getD j 0) dNet).pins,
        cm.marked.getD pr.parent_cell false = false ∧
          (if horizontal then (ckt.pinloc pr).2 else (ckt.pinloc pr).1)
            < split_point) →
      (∃ pr ∈ (ckt.nets.getD (nm.list.getD j 0) dNet).pins,
        cm.marked.getD pr.parent_cell false = false ∧
          ¬ (if horizontal then (ckt.pinloc pr).2 else (ckt.pinloc pr).1)
            < split_point) →
      (classifyNets ckt cm nm horizontal split_point true).sources.getD j false
          = true ∧
      (classifyNets ckt cm nm horizontal split_point true).sinks.getD j false
          = true) := by
  obtain ⟨hsrc, hsnk⟩ :=
    classifyNets_getD ckt cm nm horizontal split_point true hnm j hj
  have hsrc2 : (classifyNets ckt cm nm horizontal split_point true).sources.getD
      j false = srcTouch ckt cm horizontal split_point
        (ckt.nets.getD (nm.list.getD j 0) dNet) := by
    rw [hsrc, Bool.true_and]
  have hsnk2 : (classifyNets ckt cm nm horizontal split_point true).sinks.getD
      j false = sinkTouch ckt cm horizontal split_point
        (ckt.nets.getD (nm.list.getD j 0) dNet) := by
    rw [hsnk, Bool.true_and]
  refine ⟨hsrc2, hsnk2, ?_, ?_⟩
  · rintro ⟨pr0, hpr0, hb0⟩ hall
    constructor
    · rw [hsrc2, srcTouch_eq, List.any_eq_true]
      refine ⟨pr0, hpr0, ?_⟩
      rw [srcPred, hb0]
      simp [hall pr0 hpr0 hb0]
    · rw [hsnk2, sinkTouch_eq, List.any_eq_false]
      intro pr hpr
      rw [sinkPred]
      by_cases hm : cm.marked.getD pr.parent_cell false
      · rw [hm]; simp
      · have hm2 : cm.marked.getD pr.parent_cell false = false := by
          cases hx : cm.marked.getD pr.parent_cell false
          · rfl
          · exact absurd hx hm
        rw [hm2]
        simp [hall pr hpr hm2]
  · rintro ⟨pr1, hpr1, hb1, hc1⟩ ⟨pr2, hpr2, hb2, hc2⟩
    constructor
    · rw [hsrc2, srcTouch_eq, List.any_eq_true]
      refine ⟨pr1, hpr1, ?_⟩
      rw [srcPred, hb1]
      simp [hc1]
    · rw [hsnk2, sinkTouch_eq, List.any_eq_true]
      refine ⟨pr2, hpr2, ?_⟩
      rw [sinkPred, hb2]
      simp [hc2]

theorem C5_terminal_propagation_witness :
    (((classifyNets cktEx ((MarkList.new 2).mark 0) ((MarkList.new 1).mark 0)
        false 5 true).sources.getD 0 false
      = srcTouch cktEx ((MarkList.new 2).mark 0) false 5
        (cktEx.nets.getD (((MarkList.new 1).mark 0).list.getD 0 0) dNet)) ∧
     ((classifyNets cktEx ((MarkList.new 2).mark 0) ((MarkList.new 1).mark 0)
        false 5 true).sinks.getD 0 false
      = sinkTouch cktEx ((MarkList.new 2).mark 0) false 5
        (cktEx.nets.getD (((MarkList.new 1).mark 0).list.getD 0 0) dNet))) :=
  ⟨(C5_terminal_propagation cktEx ((MarkList.new 2).mark 0)
      ((MarkList.new 1).mark 0) false 5 (by decide) 0 (by decide)).1,
   (C5_terminal_propagation cktEx ((MarkList.new 2).mark 0)
      ((MarkList.new 1).mark 0) false 5 (by decide) 0 (by decide)).2.1⟩

end Claims

section MoreHelpers

theorem getD_map {α β : Type} (f : α → β) (l : List α) (j : Nat) (d : β)
    (d2 : α) (h : j < l.length) : (l.map f).getD j d = f (l.getD j d2) := by
  rw [List.getD_eq_getElem _ _ (by simpa using h), List.getD_eq_getElem _ _ h]
  simp

theorem netWeight_cases (ew : Nat) (tp s k : Bool) :
    netWeight ew (tp && s) (tp && k) =
      (if ew = 0 then 1
       else if ew = 1 then (if tp && (s || k) then 6 else 5)
       else 1) := by
  rcases ew with _ | _ | ew
  · simp [netWeight]
  · cases tp <;> cases s <;> cases k <;> simp [netWeight]
  · simp [netWeight]

end MoreHelpers

section Claims2

/-- C6: For every emitted hyperedge, the weight follows params.edgeweight:
mode 0 gives weight 1; mode 1 gives weight 6 when the net touches source or
sink (under terminal propagation) and 5 otherwise; every other mode gives
weight 1, the mode-0 fallback, rather than an error. -/
theorem C6_edge_weights (ckt : BookshelfCircuit) (cells : List Nat)
    (params : HyperParams) (hckt : ckt.WF) (hp : params.WFFor ckt)
    (hnd : cells.Nodup) (hin : ∀ c ∈ cells, c < ckt.cells.length) :
    ∃ hg : HyperGraph, (build_graph ckt cells params).out = .ok hg ∧
      (build_graph ckt cells params).params.cellmark = cmFinal cells params ∧
      (build_graph ckt cells params).params.netmark = nmFinal ckt cells params ∧
      hg.hewt.length = (nmFinal ckt cells params).list.length ∧
      ∀ j, j < hg.hewt.length →
        hg.hewt.getD j 0 =
          (if params.edgeweight = 0 then 1
           else if params.edgeweight = 1 then
             (if params.term_prop &&
                (srcTouch ckt (cmFinal cells params) params.horizontal
                    params.split_point
                    (ckt.nets.getD ((nmFinal ckt cells params).list.getD j 0) dNet)
                  || sinkTouch ckt (cmFinal cells params) params.horizontal
                    params.split_point
                    (ckt.nets.getD ((nmFinal ckt cells params).list.getD j 0) dNet))
              then 6 else 5)
           else 1) := by
  obtain ⟨hnl, hnwf, hnlen⟩ := nmFinal_spec ckt cells params hckt hp hin
  rw [build_graph_spec ckt cells params hp hnd hin]
  refine ⟨_, rfl, rfl, rfl, by simp [hewtFinal], ?_⟩
  intro j hj
  have hjl : j < (nmFinal ckt cells params).list.length := by
    simpa [hewtFinal] using hj
  show (hewtFinal ckt cells params).getD j 0 = _
  have hgetd : (hewtFinal ckt cells params).getD j 0 =
      netWeight params.edgeweight
        ((ncFinal ckt cells params).sources.getD
          ((nmFinal ckt cells params).index.getD
            ((nmFinal ckt cells params).list.getD j 0) 0) false)
        ((ncFinal ckt cells params).sinks.getD
          ((nmFinal ckt cells params).index.getD
            ((nmFinal ckt cells params).list.getD j 0) 0) false) := by
    show ((nmFinal ckt cells params).list.map _).getD j 0 = _
    exact getD_map _ _ j 0 0 hjl
  have hidx : (nmFinal ckt cells params).index.getD
      ((nmFinal ckt cells params).list.getD j 0) 0 = j :=
    hnwf.2.2.2.2.2.2 j hjl
  obtain ⟨hs, hk⟩ := classifyNets_getD ckt (cmFinal cells params)
    (nmFinal ckt cells params) params.horizontal params.split_point
    params.term_prop hnwf j hjl
  rw [hgetd, hidx]
  rw [show ncFinal ckt cells params = classifyNets ckt (cmFinal cells params)
    (nmFinal ckt cells params) params.horizontal params.split_point
    params.term_prop from rfl]
  rw [hs, hk]
  exact netWeight_cases params.edgeweight params.term_prop _ _

theorem C6_edge_weights_witness :
    ∃ hg : HyperGraph, (build_graph cktEx [0] paramsEx).out = .ok hg ∧
      (build_graph cktEx [0] paramsEx).params.cellmark = cmFinal [0] paramsEx ∧
      (build_graph cktEx [0] paramsEx).params.netmark = nmFinal cktEx [0] paramsEx ∧
      hg.hewt.length = (nmFinal cktEx [0] paramsEx).list.length ∧
      ∀ j, j < hg.hewt.length →
        hg.hewt.getD j 0 =
          (if paramsEx.edgeweight = 0 then 1
           else if paramsEx.edgeweight = 1 then
             (if paramsEx.term_prop &&
                (srcTouch cktEx (cmFinal [0] paramsEx) paramsEx.horizontal
                    paramsEx.split_point
                    (cktEx.nets.getD ((nmFinal cktEx [0] paramsEx).list.getD j 0) dNet)
                  || sinkTouch cktEx (cmFinal [0] paramsEx) paramsEx.horizontal
                    paramsEx.split_point
                    (cktEx.nets.getD ((nmFinal cktEx [0] paramsEx).list.getD j 0) dNet))
              then 6 else 5)
           else 1) :=
  C6_edge_weights cktEx [0] paramsEx (by decide) (by decide) (by decide) (by decide)

end Claims2

section SegmentHelpers

theorem eind_getD_flatten (segs : List (List Nat)) (j : Nat)
    (hj : j ≤ segs.length) :
    (0 :: offsets 0 segs).getD j 0 = ((segs.take j).flatten).length := by
  cases j with
  | zero => simp
  | succ j2 =>
    rw [List.getD_cons_succ, offsets_getD segs 0 j2 (by omega)]
    simp

theorem flatten_drop_eq (segs : List (List Nat)) (j : Nat)
    (hj : j < segs.length) :
    segs.flatten.drop ((segs.take j).flatten).length
      = segs.getD j [] ++ ((segs.drop (j + 1)).flatten) := by
  have h1 : segs.flatten = (segs.take j).flatten ++ (segs.drop j).flatten := by
    rw [← List.flatten_append, List.take_append_drop]
  rw [h1, List.drop_left]
  rw [List.drop_eq_getElem_cons hj, List.flatten_cons, List.getD_eq_getElem _ _ hj]

end SegmentHelpers

section Claims3

/-- C7: For every marked net with exactly k pin references whose parent cell
is marked, the net's hyperedge segment of eptr starts with exactly those k
local vertex ids (the cellmark index of each such parent cell, in pin
order), and the segment's total extent in eind is k plus one slot for each
touched pseudo-vertex — no duplicates beyond the k references and no
omissions. -/
theorem C7_internal_pins (ckt : BookshelfCircuit) (cells : List Nat)
    (params : HyperParams) (hckt : ckt.WF) (hp : params.WFFor ckt)
    (hnd : cells.Nodup) (hin : ∀ c ∈ cells, c < ckt.cells.length) :
    ∃ hg : HyperGraph, (build_graph ckt cells params).out = .ok hg ∧
      (build_graph ckt cells params).params.cellmark = cmFinal cells params ∧
      (build_graph ckt cells params).params.netmark = nmFinal ckt cells params ∧
      ∀ j, j < (nmFinal ckt cells params).list.length →
        (internalPins (cmFinal cells params)
            (ckt.nets.getD ((nmFinal ckt cells params).list.getD j 0) dNet)).length
          = ((ckt.nets.getD ((nmFinal ckt cells params).list.getD j 0) dNet).pins.filter
              fun pr => (cmFinal cells params).marked.getD pr.parent_cell false).length ∧
        (hg.eptr.drop (hg.eind.getD j 0)).take
            ((ckt.nets.getD ((nmFinal ckt cells params).list.getD j 0) dNet).pins.filter
              fun pr => (cmFinal cells params).marked.getD pr.parent_cell false).length
          = internalPins (cmFinal cells params)
              (ckt.nets.getD ((nmFinal ckt cells params).list.getD j 0) dNet) ∧
        hg.eind.getD (j + 1) 0 = hg.eind.getD j 0
          + ((ckt.nets.getD ((nmFinal ckt cells params).list.getD j 0) dNet).pins.filter
              fun pr => (cmFinal cells params).marked.getD pr.parent_cell false).length
          + (if params.term_prop &&
               (ncFinal ckt cells params).sources.getD j false then 1 else 0)
          + (if params.term_prop &&
               (ncFinal ckt cells params).sinks.getD j false then 1 else 0) := by
  obtain ⟨hnl, hnwf, hnlen⟩ := nmFinal_spec ckt cells params hckt hp hin
  rw [build_graph_spec ckt cells params hp hnd hin]
  refine ⟨_, rfl, rfl, rfl, ?_⟩
  intro j hj
  have hsegs : (segsFinal ckt cells params).length
      = (nmFinal ckt cells params).list.length := by
    simp [segsFinal]
  have hjs : j < (segsFinal ckt cells params).length := by omega
  have hseg : (segsFinal ckt cells params).getD j []
      = netSegment ckt (cmFinal cells params) (nmFinal ckt cells params)
          (ncFinal ckt cells params) params.term_prop
          (if params.term_prop then (cmFinal cells params).list.length else 0)
          (if params.term_prop then (cmFinal cells params).list.length + 1 else 0)
          ((nmFinal ckt cells params).list.getD j 0) := by
    show ((nmFinal ckt cells params).list.map _).getD j [] = _
    exact getD_map _ _ j [] 0 hj
  have hidx : (nmFinal ckt cells params).index.getD
      ((nmFinal ckt cells params).list.getD j 0) 0 = j :=
    hnwf.2.2.2.2.2.2 j hj
  have hklen : (internalPins (cmFinal cells params)
      (ckt.nets.getD ((nmFinal ckt cells params).list.getD j 0) dNet)).length
      = ((ckt.nets.getD ((nmFinal ckt cells params).list.getD j 0) dNet).pins.filter
          fun pr => (cmFinal cells params).marked.getD pr.parent_cell false).length := by
    rw [internalPins, List.length_map]
  refine ⟨hklen, ?_, ?_⟩
  · show ((segsFinal ckt cells params).flatten.drop
        ((0 :: offsets 0 (segsFinal ckt cells params)).getD j 0)).take _ = _
    rw [eind_getD_flatten _ j (by omega), flatten_drop_eq _ j hjs, hseg]
    rw [netSegment, hidx, List.append_assoc, List.append_assoc]
    rw [← hklen, List.take_left]
  · show (0 :: offsets 0 (segsFinal ckt cells params)).getD (j + 1) 0
        = (0 :: offsets 0 (segsFinal ckt cells params)).getD j 0 + _ + _ + _
    rw [eind_getD_flatten _ (j + 1) (by omega), eind_getD_flatten _ j (by omega)]
    rw [List.take_succ, List.flatten_append]
    rw [show (segsFinal ckt cells params)[j]? = some ((segsFinal ckt cells params).getD j [])
      from by rw [List.getD_eq_getElem _ _ hjs, List.getElem?_eq_getElem hjs]]
    rw [hseg, netSegment, hidx]
    simp only [List.length_append, Option.toList_some, List.flatten_cons,
      List.flatten_nil, List.append_nil, List.length_append]
    rw [internalPins, List.length_map]
    by_cases hc1 : (params.term_prop &&
        (ncFinal ckt cells params).sources.getD j false)
    · by_cases hc2 : (params.term_prop &&
          (ncFinal ckt cells params).sinks.getD j false)
      · rw [if_pos hc1, if_pos hc2, if_pos hc1, if_pos hc2]
        simp
        try omega
      · rw [if_pos hc1, if_neg hc2, if_pos hc1, if_neg hc2]
        simp
        try omega
    · by_cases hc2 : (params.term_prop &&
          (ncFinal ckt cells params).sinks.getD j false)
      · rw [if_neg hc1, if_pos hc2, if_neg hc1, if_pos hc2]
        simp
        try omega
      · rw [if_neg hc1, if_neg hc2, if_neg hc1, if_neg hc2]
        simp
        try omega

theorem C7_internal_pins_witness :
    ∃ hg : HyperGraph, (build_graph cktEx [0] paramsEx).out = .ok hg ∧
      (build_graph cktEx [0] paramsEx).params.cellmark = cmFinal [0] paramsEx ∧
      (build_graph cktEx [0] paramsEx).params.netmark = nmFinal cktEx [0] paramsEx ∧
      ∀ j, j < (nmFinal cktEx [0] paramsEx).list.length →
        (internalPins (cmFinal [0] paramsEx)
            (cktEx.nets.getD ((nmFinal cktEx [0] paramsEx).list.getD j 0) dNet)).length
          = ((cktEx.nets.getD ((nmFinal cktEx [0] paramsEx).list.getD j 0) dNet).pins.filter
              fun pr => (cmFinal [0] paramsEx).marked.getD pr.parent_cell false).length ∧
        (hg.eptr.drop (hg.eind.getD j 0)).take
            ((cktEx.nets.getD ((nmFinal cktEx [0] paramsEx).list.getD j 0) dNet).pins.filter
              fun pr => (cmFinal [0] paramsEx).marked.getD pr.parent_cell false).length
          = internalPins (cmFinal [0] paramsEx)
              (cktEx.nets.getD ((nmFinal cktEx [0] paramsEx).list.getD j 0) dNet) ∧
        hg.eind.getD (j + 1) 0 = hg.eind.getD j 0
          + ((cktEx.nets.getD ((nmFinal cktEx [0] paramsEx).list.getD j 0) dNet).pins.filter
              fun pr => (cmFinal [0] paramsEx).marked.getD pr.parent_cell false).length
          + (if paramsEx.term_prop &&
               (ncFinal cktEx [0] paramsEx).sources.getD j false then 1 else 0)
          + (if paramsEx.term_prop &&
               (ncFinal cktEx [0] paramsEx).sinks.getD j false then 1 else 0) :=
  C7_internal_pins cktEx [0] paramsEx (by decide) (by decide) (by decide) (by decide)

end Claims3

section Claims4

/-- C2: For every circuit with consistent cell/net pin cross-references and
every duplicate-free in-range subset, the number of hyperedges emitted by
build_graph (the length of netmark.list, equivalently eind's length minus
one) equals the number of distinct nets with at least one pin on a cell of
the subset. -/
theorem C2_edge_count (ckt : BookshelfCircuit) (cells : List Nat)
    (params : HyperParams) (hckt : ckt.WF) (hcons : ckt.Consistent)
    (hp : params.WFFor ckt) (hnd : cells.Nodup)
    (hin : ∀ c ∈ cells, c < ckt.cells.length) :
    ∃ hg : HyperGraph, (build_graph ckt cells params).out = .ok hg ∧
      (build_graph ckt cells params).params.netmark.list.length
        = ((List.range ckt.nets.length).filter fun n =>
            decide (∃ pr ∈ (ckt.nets.getD n dNet).pins,
              pr.parent_cell ∈ cells)).length ∧
      hg.eind.length - 1
        = ((List.range ckt.nets.length).filter fun n =>
            decide (∃ pr ∈ (ckt.nets.getD n dNet).pins,
              pr.parent_cell ∈ cells)).length := by
  obtain ⟨hnl, hnwf, hnlen⟩ := nmFinal_spec ckt cells params hckt hp hin
  have hcount : (nmFinal ckt cells params).list.length
      = ((List.range ckt.nets.length).filter fun n =>
          decide (∃ pr ∈ (ckt.nets.getD n dNet).pins,
            pr.parent_cell ∈ cells)).length := by
    refine length_eq_of_nodup_of_mem_iff hnwf.2.2.1
      (List.Nodup.filter _ (List.nodup_range _)) ?_
    intro n
    rw [mem_nmFinal ckt cells params hckt hp hin n, List.mem_filter,
      List.mem_range]
    constructor
    · intro hn
      have hnlt : n < ckt.nets.length := netSeq_lt ckt cells hckt hin n hn
      simp only [netSeq, List.mem_flatMap, List.mem_map] at hn
      obtain ⟨c, hc, p, hp2, hpn⟩ := hn
      have hcons2 := (hcons c (hin c hc) n hnlt).1 ⟨p, hp2, hpn⟩
      obtain ⟨pr, hpr, hpc⟩ := hcons2
      refine ⟨hnlt, ?_⟩
      rw [decide_eq_true_iff]
      exact ⟨pr, hpr, hpc ▸ hc⟩
    · intro ⟨hnlt, hdec⟩
      rw [decide_eq_true_iff] at hdec
      obtain ⟨pr, hpr, hpc⟩ := hdec
      have hclt : pr.parent_cell < ckt.cells.length := hin _ hpc
      have hcons2 := (hcons pr.parent_cell hclt n hnlt).2 ⟨pr, hpr, rfl⟩
      obtain ⟨p, hp2, hpn⟩ := hcons2
      simp only [netSeq, List.mem_flatMap, List.mem_map]
      exact ⟨pr.parent_cell, hpc, p, hp2, hpn⟩
  rw [build_graph_spec ckt cells params hp hnd hin]
  refine ⟨_, rfl, hcount, ?_⟩
  show (0 :: offsets 0 (segsFinal ckt cells params)).length - 1 = _
  rw [List.length_cons, length_offsets]
  simp only [segsFinal, List.length_map, Nat.add_sub_cancel]
  exact hcount

theorem C2_edge_count_witness :
    ∃ hg : HyperGraph, (build_graph cktEx [0] paramsEx).out = .ok hg ∧
      (build_graph cktEx [0] paramsEx).params.netmark.list.length
        = ((List.range cktEx.nets.length).filter fun n =>
            decide (∃ pr ∈ (cktEx.nets.getD n dNet).pins,
              pr.parent_cell ∈ [0])).length ∧
      hg.eind.length - 1
        = ((List.range cktEx.nets.length).filter fun n =>
            decide (∃ pr ∈ (cktEx.nets.getD n dNet).pins,
              pr.parent_cell ∈ [0])).length :=
  C2_edge_count cktEx [0] paramsEx (by decide) (by decide) (by decide)
    (by decide) (by decide)

end Claims4

section FailureHelpers

theorem markCells_append (ckt : BookshelfCircuit) (P : List Nat) :
    ∀ (R : List Nat) (i : Nat) (cm nm : MarkList) (dup : Bool)
      (cm2 nm2 : MarkList) (dup2 : Bool),
      markCells ckt P i cm nm dup = (none, cm2, nm2, dup2) →
      markCells ckt (P ++ R) i cm nm dup
        = markCells ckt R (i + P.length) cm2 nm2 dup2 := by
  induction P with
  | nil =>
    intro R i cm nm dup cm2 nm2 dup2 h
    simp only [markCells, Prod.mk.injEq, true_and] at h
    obtain ⟨rfl, rfl, rfl⟩ := h
    simp
  | cons c P ih =>
    intro R i cm nm dup cm2 nm2 dup2 h
    simp only [markCells] at h
    simp only [List.cons_append, markCells]
    by_cases h1 : c < cm.marked.length
    · rw [if_pos h1] at h ⊢
      by_cases h2 : i < (cm.mark c).list.length
      · rw [if_pos h2] at h ⊢
        have hPR : P.append R = P ++ R := rfl
        rw [hPR, ih R (i + 1) (cm.mark c) _ _ cm2 nm2 dup2 h]
        rw [show i + (c :: P).length = (i + 1) + P.length from by
          simp only [List.length_cons]; omega]
      · rw [if_neg h2] at h
        exact absurd h (by simp)
    · rw [if_neg h1] at h
      exact absurd h (by simp)

theorem not_nodup_decomp (l : List Nat) (h : ¬ l.Nodup) :
    ∃ P c R, l = P ++ c :: R ∧ P.Nodup ∧ c ∈ P := by
  induction l with
  | nil => exact absurd List.nodup_nil h
  | cons a t ih =>
    by_cases ht : t.Nodup
    · have ha : a ∈ t := by
        by_contra hna
        exact h (List.nodup_cons.2 ⟨hna, ht⟩)
      obtain ⟨T1, T2, hsplit⟩ := List.append_of_mem ha
      rw [hsplit] at ht
      have hT := List.nodup_append.1 ht
      refine ⟨a :: T1, a, T2, ?_, ?_, List.mem_cons_self a T1⟩
      · rw [hsplit]; rfl
      · rw [List.nodup_cons]
        refine ⟨fun hmem => ?_, hT.1⟩
        exact hT.2.2 hmem (List.mem_cons_self a T2)
    · obtain ⟨P, c, R, hPl, hPnd, hcP⟩ := ih ht
      by_cases haP : a ∈ P
      · obtain ⟨P1, P2, hP12⟩ := List.append_of_mem haP
        rw [hP12] at hPnd
        have hP := List.nodup_append.1 hPnd
        refine ⟨a :: P1, a, P2 ++ c :: R, ?_, ?_, List.mem_cons_self a P1⟩
        · rw [hPl, hP12]; simp
        · rw [List.nodup_cons]
          refine ⟨fun hmem => ?_, hP.1⟩
          exact hP.2.2 hmem (List.mem_cons_self a P2)
      · exact ⟨a :: P, c, R, by rw [hPl]; rfl,
          List.nodup_cons.2 ⟨haP, hPnd⟩, List.mem_cons_of_mem a hcP⟩

theorem markCells_step_dup (ckt : BookshelfCircuit) (c : Nat) (R : List Nat)
    (cm nm : MarkList) (dup : Bool) (hwf : cm.WF)
    (hlt : c < cm.marked.length) (hmem : c ∈ cm.list) :
    markCells ckt (c :: R) cm.list.length cm nm dup
      = (some "index out of range: list", cm, nm, true) := by
  simp only [markCells]
  rw [if_pos hlt]
  have hmk : cm.marked.getD c false = true := hwf.2.2.2.2.1 c hmem
  rw [hmk, Bool.or_true, MarkList.mark_of_marked hmk]
  rw [if_neg (by omega)]

theorem markCells_step_oor (ckt : BookshelfCircuit) (c : Nat) (R : List Nat)
    (i : Nat) (cm nm : MarkList) (dup : Bool)
    (h : ¬ c < cm.marked.length) :
    markCells ckt (c :: R) i cm nm dup
      = (some "index out of range: marked", cm, nm, dup) := by
  simp only [markCells]
  rw [if_neg h]

end FailureHelpers

section Claims5

/-- C3: A subset containing the same cell id twice is reported (the
"Cell already marked!" diagnostic fires) and build_graph then fails hard:
the loop's read of cellmark.list at the current loop index panics with
index out of range, because the idempotent mark did not grow the list, so
no hypergraph is ever produced for a duplicate-carrying subset. -/
theorem C3_duplicate_hard_failure (ckt : BookshelfCircuit) (cells : List Nat)
    (params : HyperParams) (hp : params.WFFor ckt)
    (hin : ∀ c ∈ cells, c < ckt.cells.length) (hdup : ¬ cells.Nodup) :
    (build_graph ckt cells params).out
        = .panicked "index out of range: list" ∧
    (build_graph ckt cells params).dupReported = true := by
  obtain ⟨P, c, R, hsplit, hPnd, hcP⟩ := not_nodup_decomp cells hdup
  have hPin : ∀ x ∈ P, x < ckt.cells.length := fun x hx =>
    hin x (by rw [hsplit]; exact List.mem_append_left _ hx)
  have hc : c < ckt.cells.length := hin c (by rw [hsplit]; simp)
  have hclwf := MarkList.clear_WF hp.1
  have hmcP := markCells_ok ckt P params.cellmark.clear params.netmark.clear
    false hclwf hPnd
    (fun x hx => by rw [MarkList.clear_len, hp.2.2.1]; exact hPin x hx)
    (fun x hx => by rw [MarkList.clear_list]; exact List.not_mem_nil x)
  have h0 : params.cellmark.clear.list.length = 0 := rfl
  rw [h0] at hmcP
  have happ := markCells_append ckt P (c :: R) 0 params.cellmark.clear
    params.netmark.clear false _ _ _ hmcP
  rw [Nat.zero_add] at happ
  have hPspec := foldl_mark_spec P params.cellmark.clear hclwf
    (fun x hx => by rw [MarkList.clear_len, hp.2.2.1]; exact hPin x hx)
  have hPlist : (P.foldl MarkList.mark params.cellmark.clear).list = P := by
    rw [hPspec.1, MarkList.clear_list, addNew_eq_append P [] hPnd
      (fun n _ => List.not_mem_nil n)]
    simp
  have hPwf := hPspec.2.1
  have hstep := markCells_step_dup ckt c R
    (P.foldl MarkList.mark params.cellmark.clear)
    ((netSeq ckt P).foldl MarkList.mark params.netmark.clear) false hPwf
    (by rw [hPwf.1, hPspec.2.2, MarkList.clear_len, hp.2.2.1]; exact hc)
    (by rw [hPlist]; exact hcP)
  rw [hPlist] at hstep
  have hfull : markCells ckt cells 0 params.cellmark.clear
      params.netmark.clear false
      = (some "index out of range: list",
         P.foldl MarkList.mark params.cellmark.clear,
         (netSeq ckt P).foldl MarkList.mark params.netmark.clear, true) := by
    rw [hsplit, happ, hstep]
  rw [build_graph_of_markCells_some ckt cells params _ _ _ _ hfull]
  exact ⟨rfl, rfl⟩

theorem C3_duplicate_hard_failure_witness :
    (build_graph cktEx [0, 0] paramsEx).out
        = .panicked "index out of range: list" ∧
    (build_graph cktEx [0, 0] paramsEx).dupReported = true :=
  C3_duplicate_hard_failure cktEx [0, 0] paramsEx (by decide) (by decide)
    (by decide)

/-- C4 counterexample: on the out-of-range subset [5], build_graph does
panic, but the cellmark MarkList is not left as it was at entry — the
clear at the top of build_graph already ran — so the claim's
"before any mutation of the shared ExtractionContext state" is false. -/
theorem C4_counterexample :
    (build_graph cktEx [5] paramsC4).out
        = .panicked "index out of range: marked" ∧
    (build_graph cktEx [5] paramsC4).params.cellmark ≠ paramsC4.cellmark := by
  constructor
  · decide
  · decide

/-- C4 amended: for a subset whose prefix P is duplicate-free and in range
and whose next entry c is out of range, build_graph fails with the fatal
index-out-of-range panic upon reaching c — but only after mutating the
shared state: both MarkLists were cleared and every id of P (with its nets)
was marked before the failure. -/
theorem C4_out_of_range_amended (ckt : BookshelfCircuit) (P R : List Nat)
    (c : Nat) (params : HyperParams) (hckt : ckt.WF) (hp : params.WFFor ckt)
    (hPnd : P.Nodup) (hPin : ∀ x ∈ P, x < ckt.cells.length)
    (hc : ckt.cells.length ≤ c) :
    (build_graph ckt (P ++ c :: R) params).out
        = .panicked "index out of range: marked" ∧
    (build_graph ckt (P ++ c :: R) params).params.cellmark.list = P ∧
    (build_graph ckt (P ++ c :: R) params).params.netmark.list
        = addNew [] (netSeq ckt P) := by
  have hclwf := MarkList.clear_WF hp.1
  have hmcP := markCells_ok ckt P params.cellmark.clear params.netmark.clear
    false hclwf hPnd
    (fun x hx => by rw [MarkList.clear_len, hp.2.2.1]; exact hPin x hx)
    (fun x hx => by rw [MarkList.clear_list]; exact List.not_mem_nil x)
  have h0 : params.cellmark.clear.list.length = 0 := rfl
  rw [h0] at hmcP
  have happ := markCells_append ckt P (c :: R) 0 params.cellmark.clear
    params.netmark.clear false _ _ _ hmcP
  rw [Nat.zero_add] at happ
  have hPspec := foldl_mark_spec P params.cellmark.clear hclwf
    (fun x hx => by rw [MarkList.clear_len, hp.2.2.1]; exact hPin x hx)
  have hPlist : (P.foldl MarkList.mark params.cellmark.clear).list = P := by
    rw [hPspec.1, MarkList.clear_list, addNew_eq_append P [] hPnd
      (fun n _ => List.not_mem_nil n)]
    simp
  have hPwf := hPspec.2.1
  have hstep := markCells_step_oor ckt c R P.length
    (P.foldl MarkList.mark params.cellmark.clear)
    ((netSeq ckt P).foldl MarkList.mark params.netmark.clear) false
    (by rw [hPwf.1, hPspec.2.2, MarkList.clear_len, hp.2.2.1]; omega)
  have hfull : markCells ckt (P ++ c :: R) 0 params.cellmark.clear
      params.netmark.clear false
      = (some "index out of range: marked",
         P.foldl MarkList.mark params.cellmark.clear,
         (netSeq ckt P).foldl MarkList.mark params.netmark.clear, false) := by
    rw [happ, hstep]
  rw [build_graph_of_markCells_some ckt (P ++ c :: R) params _ _ _ _ hfull]
  refine ⟨rfl, hPlist, ?_⟩
  have hNspec := foldl_mark_spec (netSeq ckt P) params.netmark.clear
    (MarkList.clear_WF hp.2.1)
    (fun n hn => by
      rw [MarkList.clear_len, hp.2.2.2]
      exact netSeq_lt ckt P hckt hPin n hn)
  show ((netSeq ckt P).foldl MarkList.mark params.netmark.clear).list = _
  rw [hNspec.1, MarkList.clear_list]

theorem C4_out_of_range_amended_witness :
    (build_graph cktEx ([0] ++ 5 :: []) paramsEx).out
        = .panicked "index out of range: marked" ∧
    (build_graph cktEx ([0] ++ 5 :: []) paramsEx).params.cellmark.list = [0] ∧
    (build_graph cktEx ([0] ++ 5 :: []) paramsEx).params.netmark.list
        = addNew [] (netSeq cktEx [0]) :=
  C4_out_of_range_amended cktEx [0] [] 5 paramsEx (by decide) (by decide)
    (by decide) (by decide) (by decide)

end Claims5

end BookshelfR
